import Mathlib

/-!
Shallow embedding of the travel-assistant few-shot selection core:
the similarity scorer and smart strategy selection
(`app/services/few_shot_selector.py`), the LRU example cache with
composite re-ranking (`app/services/example_cache.py`), and the
dual-strategy user-history store (`app/services/user_history.py`).

Modelling conventions:
- Python floats are modelled as exact rationals (`ℚ`); `round(x, n)` is
  modelled by `pyRound` (round-half-up on rationals, agreeing with
  Python's round-half-even everywhere except exact midpoint ties, which
  none of the proved statements depend on).
- Python dicts (and `OrderedDict`) are modelled as association lists in
  insertion order; `OrderedDict.move_to_end` / LRU order is the list
  order, front = least recently used.
- ISO timestamps are modelled as rational POSIX seconds.
- Disk persistence (`_save_cache` / `save_history`) is modelled by a
  `writes` counter on the cache state, so "no persistence write occurs"
  is provable as `writes` being unchanged.
-/

namespace TravelAssistant

/- Core marks rational arithmetic `@[irreducible]`, which blocks `decide`'s
elaboration-time evaluation on concrete witnesses; restore the default
reducibility locally so concrete rational computations evaluate. -/
attribute [local semireducible] Rat.inv Rat.mul Rat.add Rat.sub Rat.ofScientific

/-! ### Association-list primitives (Python `dict` / `OrderedDict`) -/

/-- First-match lookup, as for a Python dict keyed by strings. -/
def alookup {β : Type} (k : String) : List (String × β) → Option β
  | [] => none
  | p :: l => if p.1 = k then some p.2 else alookup k l

/-- Remove every binding of key `k` (Python `del d[k]`; dicts hold each key once). -/
def aerase {β : Type} (k : String) : List (String × β) → List (String × β)
  | [] => []
  | p :: l => if p.1 = k then aerase k l else p :: aerase k l

/-- In-place value update when `k` is present (keeps its position), append otherwise —
exactly a Python `d[k] = v`. -/
def aset {β : Type} (k : String) (v : β) (l : List (String × β)) : List (String × β) :=
  if (alookup k l).isSome then l.map (fun p => if p.1 = k then (k, v) else p)
  else l ++ [(k, v)]

/-! ### Python string helpers
Implemented structurally over the character list (core's `String.toLower`,
`String.split`, `String.replace`, `String.trim` are well-founded recursions
the kernel cannot evaluate); on the ASCII data these agree with both the
core functions and the Python originals. -/

/-- Python `s.lower()`. -/
def pyLower (s : String) : String := ⟨s.data.map Char.toLower⟩

/-- Python `s.split()`: split on whitespace, dropping empty tokens. -/
def pySplit (s : String) : List String :=
  ((s.data.splitOnP (fun c => c.isWhitespace)).map String.mk).filter (fun w => w ≠ "")

/-- Python `s.replace(",", " ")`. -/
def commaToSpace (s : String) : String :=
  ⟨s.data.map (fun c => if c = ',' then ' ' else c)⟩

/-- Python `s.strip()`: drop whitespace from both ends. -/
def pyStrip (s : String) : String :=
  ⟨((s.data.dropWhile Char.isWhitespace).reverse.dropWhile Char.isWhitespace).reverse⟩

/-- Python `"_".join(ws)`. -/
def joinUnderscore (ws : List String) : String :=
  ⟨List.intercalate ['_'] (ws.map String.data)⟩

/-- Python `round(x, ndigits)`, modelled as round-half-up on rationals
(Python uses round-half-to-even; the two agree except at exact midpoint ties). -/
def pyRound (ndigits : ℕ) (q : ℚ) : ℚ :=
  ((round (q * (10 ^ ndigits : ℚ)) : ℤ) : ℚ) / (10 ^ ndigits : ℚ)

/-- Distinct elements of a list in first-occurrence order
(iteration order of a Python `Counter`). -/
def uniqueFirst {α : Type} [DecidableEq α] : List α → List α
  | [] => []
  | a :: l => a :: uniqueFirst (l.filter (fun b => b ≠ a))
termination_by l => l.length
decreasing_by
  simpa using Nat.lt_succ_of_le (List.length_filter_le _ _)

/-- Python `Counter(l).most_common(n)` keys: elements sorted by multiplicity,
descending, ties broken by first occurrence (stable), truncated to `n`. -/
def mostCommon (l : List String) (n : ℕ) : List String :=
  ((((uniqueFirst l).map (fun a => (a, l.count a))).mergeSort
    (fun x y => decide (y.2 ≤ x.2))).take n).map Prod.fst

/-! ### Trip records (`user_history.py` / `few_shot_selector.py`) -/

structure Trip where
  id : String
  destination : String
  travel_dates : String
  preferences : String
  flight_summary : String
  hotel_summary : String
  itinerary_highlights : List String
  satisfaction_rating : ℤ
  token_usage : ℤ
  latency_ms : ℤ
  timestamp : ℚ
deriving DecidableEq

/-! ### SimilarityScorer (`FewShotSelector.calculate_similarity_score`) -/

/-- Stopword set removed from preference tokens (source lines 74–86). -/
def stopwords : List String :=
  ["and", "the", "a", "an", "or", "but", "in", "on", "at", "to", "for"]

/-- Destination tokenization: lower-case, commas to spaces, whitespace split, set. -/
def destParts (s : String) : Finset String :=
  (pySplit (commaToSpace (pyLower s))).toFinset

/-- Preference tokenization: as `destParts`, then drop empties and stopwords. -/
def prefParts (s : String) : Finset String :=
  (pySplit (commaToSpace (pyLower s))).toFinset.filter
    (fun p => p ≠ "" ∧ p ∉ stopwords)

/-- `FewShotSelector.calculate_similarity_score` (source lines 32–101):
destination Jaccard at weight 0.4, stopword-filtered preference Jaccard at
weight 0.4, satisfaction bonus `0.2 * rating / 5` when `rating > 0`,
summed then capped at 1.0. -/
def calculate_similarity_score (trip : Trip) (destination preferences : String) : ℚ :=
  let trip_parts := destParts trip.destination
  let current_parts := destParts destination
  let destScore : ℚ :=
    if (trip_parts ∩ current_parts).Nonempty then
      0.4 * (((trip_parts ∩ current_parts).card : ℚ) / ((trip_parts ∪ current_parts).card : ℚ))
    else 0
  let trip_prefs := prefParts trip.preferences
  let current_prefs := prefParts preferences
  let prefScore : ℚ :=
    if trip_prefs.Nonempty ∧ current_prefs.Nonempty ∧ 0 < (trip_prefs ∪ current_prefs).card then
      0.4 * (((trip_prefs ∩ current_prefs).card : ℚ) / ((trip_prefs ∪ current_prefs).card : ℚ))
    else 0
  let ratingScore : ℚ :=
    if 0 < trip.satisfaction_rating then 0.2 * ((trip.satisfaction_rating : ℚ) / 5) else 0
  min (destScore + prefScore + ratingScore) 1

/-! ### ExampleCache (`example_cache.py`) -/

/-- Per-fingerprint usage statistics (`ExampleCache.stats` values).
`satisfaction_score` is optional because the stats record created on a
`get` miss of the stats table (source lines 110–115) omits that field;
reads fall back to `0.5` as in the source. -/
structure CacheStats where
  usage_count : ℕ
  satisfaction_score : Option ℚ
  created_at : ℚ
  last_used : Option ℚ
deriving DecidableEq

/-- State of an `ExampleCache`. `cache` is the `OrderedDict` in access
order (front = least recently used); `stats` the side table; `writes`
counts `_save_cache` invocations (disk persistence). -/
structure CacheState (Ex : Type) where
  max_size : ℕ
  cache : List (String × List Ex)
  stats : List (String × CacheStats)
  writes : ℕ
deriving DecidableEq

def emptyCache (Ex : Type) (max_size : ℕ) : CacheState Ex :=
  ⟨max_size, [], [], 0⟩

/-- `ExampleCache._generate_key` (source lines 78–91): lower-cased
destination, underscore, first five whitespace tokens of the lower-cased
preferences joined by underscores. -/
def generate_key (destination preferences : String) : String :=
  pyLower destination ++ "_" ++ joinUnderscore ((pySplit (pyLower preferences)).take 5)

/-- `ExampleCache.get` (source lines 93–123): on a hit, move the key to the
most-recently-used end, bump usage stats, persist, and return the entry; on a
miss return `none` and leave the state untouched. -/
def cacheGet {Ex : Type} (s : CacheState Ex) (destination preferences : String) (now : ℚ) :
    Option (List Ex) × CacheState Ex :=
  let key := generate_key destination preferences
  match alookup key s.cache with
  | some v =>
    let cache' := aerase key s.cache ++ [(key, v)]
    let st0 := (alookup key s.stats).getD ⟨0, none, now, none⟩
    let st1 : CacheStats :=
      { st0 with usage_count := st0.usage_count + 1, last_used := some now }
    (some v, { s with cache := cache', stats := aset key st1 s.stats, writes := s.writes + 1 })
  | none => (none, s)

/-- Eviction step of `ExampleCache.put` (source lines 164–170): when the
cache exceeds `max_size`, drop the least-recently-used key (the first in
access order) from both the entry map and the stats map. -/
def evictIfOver {Ex : Type} (max_size : ℕ) (cache2 : List (String × List Ex))
    (stats1 : List (String × CacheStats)) :
    List (String × List Ex) × List (String × CacheStats) :=
  if max_size < cache2.length then
    match cache2 with
    | [] => (cache2, stats1)
    | (lru_key, _) :: _ => (aerase lru_key cache2, aerase lru_key stats1)
  else (cache2, stats1)

/-- `ExampleCache.put` (source lines 125–172): delete any existing entry for
the fingerprint, re-insert at the most-recently-used end, initialize or blend
stats, then if the cache exceeds `max_size` evict the least-recently-used key
from both the entry map and the stats map; persist. -/
def cachePut {Ex : Type} (s : CacheState Ex) (destination preferences : String)
    (examples : List Ex) (satisfaction_score : ℚ) (now : ℚ) : CacheState Ex :=
  let key := generate_key destination preferences
  let cache1 := if (alookup key s.cache).isSome then aerase key s.cache else s.cache
  let cache2 := cache1 ++ [(key, examples)]
  let stats1 :=
    match alookup key s.stats with
    | none => s.stats ++ [(key, ⟨0, some satisfaction_score, now, none⟩)]
    | some st =>
      let current_score := st.satisfaction_score.getD 0.5
      let count := st.usage_count
      let new_score := (current_score * count + satisfaction_score) / (count + 1)
      aset key { st with satisfaction_score := some new_score } s.stats
  let step := evictIfOver s.max_size cache2 stats1
  { s with cache := step.1, stats := step.2, writes := s.writes + 1 }

/-- Normalizer for popularity (source lines 211–213):
`max([s.get("usage_count", 1) for s in self.stats.values()] or [1])`. -/
def maxUsage (stats : List (String × CacheStats)) : ℕ :=
  let us := stats.map (fun p => p.2.usage_count)
  (if us.isEmpty then [1] else us).foldl Nat.max 0

/-- Composite ranking score (source line 223):
`0.4*satisfaction + 0.3*popularity + 0.3*recency` with
`popularity = usage_count / max_usage` and
`recency = max(0, 1 - age_days/30)`. Division by zero yields 0 in `ℚ`;
on the reachable (hit) paths `max_usage ≥ 1`. -/
def compositeScore (satisfaction : ℚ) (usage_count : ℕ) (max_usage : ℕ) (age_days : ℚ) : ℚ :=
  0.4 * satisfaction + 0.3 * ((usage_count : ℚ) / (max_usage : ℚ)) +
    0.3 * max 0 (1 - age_days / 30)

/-- Per-example score breakdown recorded in the ranking info (source lines 229–234),
with values rounded to three digits. -/
structure ScoreBreakdown where
  satisfaction : ℚ
  popularity : ℚ
  recency : ℚ
  composite : ℚ
deriving DecidableEq

/-- Ranking info returned by `get_ranked_examples` (source lines 242–247). -/
structure RankingInfo where
  total_examples_evaluated : ℕ
  top_examples_selected : ℕ
  weight_satisfaction : ℚ
  weight_popularity : ℚ
  weight_recency : ℚ
  scores : List ScoreBreakdown
deriving DecidableEq

/-- `ExampleCache.get_ranked_examples` (source lines 174–250): re-fetch via
`get` (which bumps this key's usage stats), score every example in the entry
with the composite formula computed from the current key's (post-bump) stats,
stable-sort descending, and return the top `top_k` with ranking info.
A miss — or a hit whose entry is the empty list — returns `([], {})`,
modelled as `([], none)`. -/
def get_ranked_examples {Ex : Type} (s : CacheState Ex) (destination preferences : String)
    (top_k : ℕ) (now : ℚ) : (List Ex × Option RankingInfo) × CacheState Ex :=
  match cacheGet s destination preferences now with
  | (none, s1) => (([], none), s1)
  | (some examples, s1) =>
    if examples.isEmpty then (([], none), s1)
    else
      let key := generate_key destination preferences
      let scored := examples.map (fun e =>
        let stats := alookup key s1.stats
        let satisfaction := (stats.bind (fun st => st.satisfaction_score)).getD 0.5
        let max_usage := maxUsage s1.stats
        let usage := (stats.map (fun st => st.usage_count)).getD 0
        let created_at := (stats.map (fun st => st.created_at)).getD now
        let age_days := (now - created_at) / (60 * 60 * 24)
        let recency : ℚ := max 0 (1 - age_days / 30)
        let score := compositeScore satisfaction usage max_usage age_days
        (e, score,
          ScoreBreakdown.mk (pyRound 3 satisfaction)
            (pyRound 3 ((usage : ℚ) / (max_usage : ℚ))) (pyRound 3 recency) (pyRound 3 score)))
      let sorted := scored.mergeSort (fun x y => decide (y.2.1 ≤ x.2.1))
      let info : RankingInfo :=
        ⟨scored.length, min top_k scored.length, 0.4, 0.3, 0.3,
          (sorted.take top_k).map (fun t => t.2.2)⟩
      (((sorted.take top_k).map (fun t => t.1), some info), s1)

/-- One public cache operation, for stating state-machine invariants. -/
inductive CacheOp (Ex : Type) where
  | get (destination preferences : String) (now : ℚ)
  | put (destination preferences : String) (examples : List Ex) (satisfaction_score now : ℚ)

def applyOp {Ex : Type} (s : CacheState Ex) : CacheOp Ex → CacheState Ex
  | .get d p now => (cacheGet s d p now).2
  | .put d p ex sat now => cachePut s d p ex sat now

def applyOps {Ex : Type} (s : CacheState Ex) (ops : List (CacheOp Ex)) : CacheState Ex :=
  ops.foldl applyOp s

/-- Arguments of one `put` call, for stating the fill/eviction scenarios. -/
structure PutArgs (Ex : Type) where
  destination : String
  preferences : String
  examples : List Ex
  satisfaction_score : ℚ
  now : ℚ

/-- Fingerprint of a `put` call's arguments. -/
def fp {Ex : Type} (e : PutArgs Ex) : String := generate_key e.destination e.preferences

def putOne {Ex : Type} (s : CacheState Ex) (e : PutArgs Ex) : CacheState Ex :=
  cachePut s e.destination e.preferences e.examples e.satisfaction_score e.now

def putAll {Ex : Type} (s : CacheState Ex) (entries : List (PutArgs Ex)) : CacheState Ex :=
  entries.foldl putOne s

/-! ### HistoryStore (`user_history.py`) -/

/-- `historySummary` record. `tripsByContinent` is initialized empty and never
written by the core. -/
structure HistorySummary where
  totalTrips : ℕ
  favoriteDestinations : List String
  preferencePatterns : List String
  avgSatisfactionRating : ℚ
  avgTokenUsage : ℤ
  avgLatencyMs : ℤ
  tripsByContinent : List (String × ℕ)
  lastUpdated : ℚ
deriving DecidableEq

def defaultSummary (now : ℚ) : HistorySummary :=
  ⟨0, [], [], 0, 0, 0, [], now⟩

structure UserRecord where
  name : String
  recentTrips : List Trip
  historySummary : HistorySummary
deriving DecidableEq

/-- The canonical empty record returned for a fully unknown user
(source lines 126–142) and seeded for `default_user` on first start. -/
def defaultGuestRecord (now : ℚ) : UserRecord :=
  ⟨"Guest User", [], defaultSummary now⟩

/-- Record created lazily by `add_trip` for a new user (source lines 211–225). -/
def newUserRecord (user_id : String) (now : ℚ) : UserRecord :=
  ⟨"User " ++ user_id, [], defaultSummary now⟩

/-- The whole persisted history document (`{"users": {...}}`). -/
structure HistoryStore where
  users : List (String × UserRecord)
deriving DecidableEq

def emptyStore : HistoryStore := ⟨[]⟩

def MAX_RECENT_TRIPS : ℕ := 10

/-- `UserHistoryManager.get_user_data` (source lines 113–144): the stored
record for `user_id`, else `users.get("default_user", canonical-default)`. -/
def get_user_data (store : HistoryStore) (user_id : String) (now : ℚ) : UserRecord :=
  match alookup user_id store.users with
  | some r => r
  | none => (alookup "default_user" store.users).getD (defaultGuestRecord now)

/-- `UserHistoryManager.get_recent_trips` (source lines 146–162):
`trips[:limit]` when a limit is given, the whole window otherwise. -/
def get_recent_trips (store : HistoryStore) (user_id : String) (limit : Option ℕ)
    (now : ℚ) : List Trip :=
  let trips := (get_user_data store user_id now).recentTrips
  match limit with
  | some k => trips.take k
  | none => trips

/-- `UserHistoryManager.get_summary` (source lines 164–174). -/
def get_summary (store : HistoryStore) (user_id : String) (now : ℚ) : HistorySummary :=
  (get_user_data store user_id now).historySummary

/-- Caller-supplied fields of one `add_trip` invocation. -/
structure TripInput where
  destination : String
  travel_dates : String
  preferences : String
  flight_summary : String
  hotel_summary : String
  itinerary_highlights : List String
  satisfaction_rating : ℤ
  token_usage : ℤ
  latency_ms : ℤ
deriving DecidableEq

/-- The `new_trip` dict built by `add_trip` (source lines 230–243), with
`id = "trip_{user_id}_{totalTrips + 1}"` from the user's current counter. -/
def mkNewTrip (user_id : String) (totalTrips : ℕ) (inp : TripInput) (now : ℚ) : Trip :=
  ⟨"trip_" ++ user_id ++ "_" ++ toString (totalTrips + 1), inp.destination,
    inp.travel_dates, inp.preferences, inp.flight_summary, inp.hotel_summary,
    inp.itinerary_highlights, inp.satisfaction_rating, inp.token_usage,
    inp.latency_ms, now⟩

/-- `UserHistoryManager._archive_trip_to_summary` (source lines 260–279):
append the evicted trip's destination to `favoriteDestinations` if novel and
under the cap of 10; split its preferences on commas and append novel
stripped lower-cased tokens to `preferencePatterns` under the cap of 20. -/
def archive_trip_to_summary (summary : HistorySummary) (trip : Trip) : HistorySummary :=
  let favs := summary.favoriteDestinations
  let favs' := if trip.destination ∉ favs ∧ favs.length < 10 then favs ++ [trip.destination] else favs
  let prefTokens := (trip.preferences.data.splitOnP (fun c => c = ',')).map
    (fun p => pyLower (pyStrip (String.mk p)))
  let pats := prefTokens.foldl
    (fun acc p => if p ≠ "" ∧ p ∉ acc ∧ acc.length < 20 then acc ++ [p] else acc)
    summary.preferencePatterns
  { summary with favoriteDestinations := favs', preferencePatterns := pats }

/-- `UserHistoryManager._update_summary` (source lines 281–333). Note line 292
of the source assigns `totalTrips` to itself, so the counter never changes;
the recomputed `favoriteDestinations` / `preferencePatterns` REPLACE the
previous (including freshly archived) values. `int(sum/len)` truncation is
modelled by `⌊·⌋`, which agrees since the filtered values are positive. -/
def update_summary (summary : HistorySummary) (recent_trips : List Trip) (now : ℚ) :
    HistorySummary :=
  if recent_trips.isEmpty then summary
  else
    let s1 := { summary with totalTrips := summary.totalTrips }
    let ratings := (recent_trips.map (fun t => t.satisfaction_rating)).filter (fun r => 0 < r)
    let tokens := (recent_trips.map (fun t => t.token_usage)).filter (fun v => 0 < v)
    let latencies := (recent_trips.map (fun t => t.latency_ms)).filter (fun v => 0 < v)
    let s2 :=
      if ratings.isEmpty then s1
      else { s1 with avgSatisfactionRating := pyRound 2 ((ratings.sum : ℚ) / (ratings.length : ℚ)) }
    let s3 :=
      if tokens.isEmpty then s2
      else { s2 with avgTokenUsage := ⌊((tokens.sum : ℚ) / (tokens.length : ℚ))⌋ }
    let s4 :=
      if latencies.isEmpty then s3
      else { s3 with avgLatencyMs := ⌊((latencies.sum : ℚ) / (latencies.length : ℚ))⌋ }
    let destinations := recent_trips.map (fun t => t.destination)
    let all_prefs := recent_trips.foldl
      (fun acc t =>
        acc ++ ((pySplit (commaToSpace (pyLower t.preferences))).map (fun p => pyStrip p)).filter
          (fun p => p ≠ "")) []
    { s4 with favoriteDestinations := mostCommon destinations 10,
              preferencePatterns := mostCommon all_prefs 20,
              lastUpdated := now }

/-- Per-record transition of `add_trip` (source lines 229–255): append the
new trip (id derived from the record's `totalTrips` counter), pop-and-archive
the oldest when the window exceeds 10, then recompute the summary. -/
def add_trip_record (user : UserRecord) (user_id : String) (inp : TripInput) (now : ℚ) :
    UserRecord :=
  let new_trip := mkNewTrip user_id user.historySummary.totalTrips inp now
  let recent1 := user.recentTrips ++ [new_trip]
  let step : List Trip × HistorySummary :=
    if MAX_RECENT_TRIPS < recent1.length then
      match recent1 with
      | [] => (recent1, user.historySummary)
      | oldest :: rest => (rest, archive_trip_to_summary user.historySummary oldest)
    else (recent1, user.historySummary)
  { user with recentTrips := step.1, historySummary := update_summary step.2 step.1 now }

/-- `UserHistoryManager.add_trip` (source lines 176–258): ensure the user
record exists (created lazily with defaults), apply the per-record
transition, and write the record back. -/
def add_trip (store : HistoryStore) (user_id : String) (inp : TripInput) (now : ℚ) :
    HistoryStore :=
  let users1 :=
    if (alookup user_id store.users).isSome then store.users
    else store.users ++ [(user_id, newUserRecord user_id now)]
  let user := (alookup user_id users1).getD (newUserRecord user_id now)
  ⟨aset user_id (add_trip_record user user_id inp now) users1⟩

/-- Trips created by a sequence of `add_trip` calls for one user starting from
an empty record: since `_update_summary` never changes `totalTrips`, every
created trip uses the same counter value. -/
def createdTrips (user_id : String) (inputs : List (TripInput × ℚ)) : List Trip :=
  inputs.map (fun q => mkNewTrip user_id 0 q.1 q.2)

/-- Fold a sequence of `add_trip` calls for a single user over a store. -/
def addAll (store : HistoryStore) (user_id : String) (inputs : List (TripInput × ℚ)) :
    HistoryStore :=
  inputs.foldl (fun s q => add_trip s user_id q.1 q.2) store

/-! ### FewShotSelector (`few_shot_selector.py`) -/

def HIGH_SIMILARITY_THRESHOLD : ℚ := 0.70
def MEDIUM_SIMILARITY_THRESHOLD : ℚ := 0.40

/-- A trip copy extended with its `similarity_score`
(`trip_with_score`, source lines 154–156). -/
structure ScoredTrip where
  trip : Trip
  similarity_score : ℚ
deriving DecidableEq

inductive Strategy where
  | full | condensed | summary | none'
deriving DecidableEq

/-- The `examples` field of the selection dict: scored trips for
full/condensed, the history summary for the summary strategy. -/
inductive ExamplesPayload where
  | trips (l : List ScoredTrip)
  | profile (s : HistorySummary)
deriving DecidableEq

structure SelectionResult where
  strategy : Strategy
  examples : ExamplesPayload
  estimated_tokens : ℕ
  from_cache : Bool
  ranking_info : Option RankingInfo
deriving DecidableEq

/-- Scoring loop of `select_examples_smart` (source lines 151–156). -/
def scoredTrips (recent : List Trip) (destination preferences : String) : List ScoredTrip :=
  recent.map (fun t => ⟨t, calculate_similarity_score t destination preferences⟩)

/-- `scored_trips.sort(key=..., reverse=True)` (source line 159): stable sort,
descending by similarity score. -/
def sortScoredTrips (l : List ScoredTrip) : List ScoredTrip :=
  l.mergeSort (fun x y => decide (y.similarity_score ≤ x.similarity_score))

/-- Cache-miss part of `select_examples_smart` (source lines 143–200),
operating on the cache state left by the probe. When there are no scored
trips the source takes `best_score = 0`, which falls through both threshold
tests into the summary branch; the empty-sorted match arm returns that
branch directly. -/
def selectFromHistory (c : CacheState ScoredTrip) (store : HistoryStore)
    (destination preferences user_id : String) (max_examples : ℕ) (now : ℚ) :
    SelectionResult × CacheState ScoredTrip :=
  let recent_trips := get_recent_trips store user_id none now
  let summary := get_summary store user_id now
  if recent_trips.isEmpty ∧ summary.totalTrips = 0 then
    (⟨.none', .trips [], 0, false, none⟩, c)
  else
    let sorted := sortScoredTrips (scoredTrips recent_trips destination preferences)
    match sorted with
    | [] => (⟨.summary, .profile summary, 150, false, none⟩, c)
    | top_match :: _ =>
      let best_score := top_match.similarity_score
      if HIGH_SIMILARITY_THRESHOLD ≤ best_score then
        (⟨.full, .trips [top_match], 800, false, none⟩,
          cachePut c destination preferences [top_match] 0.5 now)
      else if MEDIUM_SIMILARITY_THRESHOLD ≤ best_score then
        let top_matches := sorted.take (min max_examples sorted.length)
        (⟨.condensed, .trips top_matches, top_matches.length * 200, false, none⟩,
          cachePut c destination preferences top_matches 0.5 now)
      else
        (⟨.summary, .profile summary, 150, false, none⟩, c)

/-- `FewShotSelector.select_examples_smart` (source lines 103–200): probe the
cache (a truthy hit re-ranks and returns condensed from cache; a hit carrying
an empty list, or an empty re-ranked list, falls through), otherwise select by
best similarity against the two thresholds. -/
def select_examples_smart (cache : CacheState ScoredTrip) (store : HistoryStore)
    (destination preferences user_id : String) (max_examples : ℕ) (now : ℚ) :
    SelectionResult × CacheState ScoredTrip :=
  match cacheGet cache destination preferences now with
  | (some l, c1) =>
    if l.isEmpty then selectFromHistory c1 store destination preferences user_id max_examples now
    else
      match get_ranked_examples c1 destination preferences max_examples now with
      | ((ranked, info), c2) =>
        if ranked.isEmpty then
          selectFromHistory c2 store destination preferences user_id max_examples now
        else (⟨.condensed, .trips ranked, ranked.length * 200, true, info⟩, c2)
  | (none, c1) => selectFromHistory c1 store destination preferences user_id max_examples now

/-! ### Concrete instances used by witnesses and counterexamples -/

/-- A past trip to "paris" with rich preferences and a 5-star rating:
scores exactly 0.4 + 0.1 + 0.2 = 0.70 against request ("paris", "food"). -/
def wTripHi : Trip :=
  ⟨"t1", "paris", "", "food art museums history", "", "", [], 5, 0, 0, 0⟩

/-- A past trip to "paris" with no preferences and no rating:
scores exactly 0.40 against request ("paris", ""). -/
def wTripMid : Trip :=
  ⟨"t2", "paris", "", "", "", "", [], 0, 0, 0, 0⟩

/-- A store whose single user "u" has one high-similarity trip. -/
def wStoreHi : HistoryStore :=
  ⟨[("u", ⟨"User u", [wTripHi], defaultSummary 0⟩)]⟩

/-- A store whose single user "u" has one medium-similarity trip. -/
def wStoreMid : HistoryStore :=
  ⟨[("u", ⟨"User u", [wTripMid], defaultSummary 0⟩)]⟩

/-- A store where `default_user` has accumulated a trip (non-empty record). -/
def wStoreDefaultPopulated : HistoryStore :=
  ⟨[("default_user", ⟨"Guest User", [wTripMid], defaultSummary 0⟩)]⟩

/-- A store whose user "u" holds a two-trip window: "rome" appended before "oslo". -/
def wStoreTwoTrips : HistoryStore :=
  ⟨[("u", ⟨"User u",
      [⟨"t1", "rome", "", "", "", "", [], 0, 0, 0, 0⟩,
       ⟨"t2", "oslo", "", "", "", "", [], 0, 0, 0, 0⟩], defaultSummary 0⟩)]⟩

/-- Trip-input literal with only a destination. -/
def wInput (d : String) : TripInput := ⟨d, "", "", "", "", [], 0, 0, 0⟩

/-- Eleven trip inputs: destination "z" first, then ten times "p". -/
def wElevenInputs : List (TripInput × ℚ) :=
  (wInput "z", 0) :: List.replicate 10 (wInput "p", 0)

/-- `put` argument literal keyed by its destination. -/
def wPut (d : String) : PutArgs String := ⟨d, "", ["x" ++ d], 1/2, 0⟩

/-- Cache state with two fingerprints: `"k_"` (usage 4, satisfaction 0.8, created
at time 0) holding two examples, and `"other_"` (usage 10). After the internal
`get` bump at `now = 864000` (ten days), `"k_"` has usage 5 and max usage is 10. -/
def wRankCache : CacheState String :=
  ⟨50, [("k_", ["e1", "e2"]), ("other_", ["q"])],
    [("k_", ⟨4, some (4/5), 0, none⟩), ("other_", ⟨10, some (1/2), 0, none⟩)], 0⟩

/-! ### Association-list lemmas -/

theorem alookup_append_of_none {β : Type} {k : String} {l₁ : List (String × β)}
    (l₂ : List (String × β)) (h : alookup k l₁ = none) :
    alookup k (l₁ ++ l₂) = alookup k l₂ := by
  induction l₁ with
  | nil => rfl
  | cons a t ih =>
    by_cases hk : a.1 = k
    · simp [alookup, hk] at h
    · simp only [alookup, hk, if_false, List.cons_append] at h ⊢
      exact ih h

theorem alookup_append_of_some {β : Type} {k : String} {l₁ : List (String × β)} {v : β}
    (l₂ : List (String × β)) (h : alookup k l₁ = some v) :
    alookup k (l₁ ++ l₂) = some v := by
  induction l₁ with
  | nil => simp [alookup] at h
  | cons a t ih =>
    by_cases hk : a.1 = k
    · simp only [alookup, hk, if_true] at h
      simp only [List.cons_append, alookup, hk, if_true]
      exact h
    · simp only [alookup, hk, if_false] at h
      simp only [List.cons_append, alookup, hk, if_false]
      exact ih h

theorem alookup_eq_none_iff {β : Type} {k : String} {l : List (String × β)} :
    alookup k l = none ↔ k ∉ l.map Prod.fst := by
  induction l with
  | nil => simp [alookup]
  | cons a t ih =>
    by_cases hk : a.1 = k
    · simp [alookup, hk]
    · have hk' : ¬ (k = a.1) := fun hh => hk hh.symm
      simp [alookup, hk, ih, hk']

theorem alookup_isSome_iff {β : Type} {k : String} {l : List (String × β)} :
    (alookup k l).isSome = true ↔ k ∈ l.map Prod.fst := by
  rw [Option.isSome_iff_ne_none]
  simp [Ne, alookup_eq_none_iff]

theorem alookup_some_mem {β : Type} {k : String} {l : List (String × β)} {v : β}
    (h : alookup k l = some v) : (k, v) ∈ l := by
  induction l with
  | nil => simp [alookup] at h
  | cons a t ih =>
    by_cases hk : a.1 = k
    · simp only [alookup, hk, if_true, Option.some_inj] at h
      have : a = (k, v) := by
        obtain ⟨a1, a2⟩ := a
        simp only at hk h
        rw [hk, h]
      rw [← this]
      exact List.mem_cons_self a t
    · simp only [alookup, hk, if_false] at h
      exact List.mem_cons_of_mem _ (ih h)

theorem aerase_of_not_mem {β : Type} {k : String} {l : List (String × β)}
    (h : k ∉ l.map Prod.fst) : aerase k l = l := by
  induction l with
  | nil => rfl
  | cons a t ih =>
    simp only [List.map_cons, List.mem_cons, not_or] at h
    have hk : ¬ (a.1 = k) := fun hh => h.1 hh.symm
    simp only [aerase, hk, if_false]
    rw [ih h.2]

theorem alookup_aerase_self {β : Type} (k : String) (l : List (String × β)) :
    alookup k (aerase k l) = none := by
  induction l with
  | nil => rfl
  | cons a t ih =>
    by_cases hk : a.1 = k
    · simp only [aerase, hk, if_true]
      exact ih
    · simp only [aerase, hk, if_false, alookup]
      exact ih

theorem alookup_aerase_ne {β : Type} {k k' : String} (l : List (String × β))
    (h : k ≠ k') : alookup k (aerase k' l) = alookup k l := by
  induction l with
  | nil => rfl
  | cons a t ih =>
    by_cases hk' : a.1 = k'
    · have hk : ¬ (a.1 = k) := by rw [hk']; exact fun hh => h hh.symm
      have h2 : ¬ (k' = k) := fun hh => h hh.symm
      simp only [aerase, hk', if_true, alookup, hk, h2, if_false]
      exact ih
    · simp only [aerase, hk', if_false, alookup]
      by_cases hk : a.1 = k
      · simp [hk]
      · simp only [hk, if_false]
        exact ih

theorem length_aerase_le {β : Type} (k : String) (l : List (String × β)) :
    (aerase k l).length ≤ l.length := by
  induction l with
  | nil => simp [aerase]
  | cons a t ih =>
    by_cases hk : a.1 = k
    · simp only [aerase, hk, if_true, List.length_cons]
      exact Nat.le_succ_of_le ih
    · simp only [aerase, hk, if_false, List.length_cons]
      exact Nat.succ_le_succ ih

theorem length_aerase_lt_of_mem {β : Type} {k : String} {l : List (String × β)}
    (h : k ∈ l.map Prod.fst) : (aerase k l).length < l.length := by
  induction l with
  | nil => simp at h
  | cons a t ih =>
    by_cases hk : a.1 = k
    · simp only [aerase, hk, if_true, List.length_cons]
      exact Nat.lt_succ_of_le (length_aerase_le k t)
    · simp only [List.map_cons, List.mem_cons] at h
      rcases h with h | h
      · exact absurd h.symm hk
      · simp only [aerase, hk, if_false, List.length_cons]
        exact Nat.succ_lt_succ (ih h)

theorem alookup_map_update {β : Type} {k k' : String} (v : β) (l : List (String × β))
    (h : k ≠ k') :
    alookup k (l.map (fun p => if p.1 = k' then (k', v) else p)) = alookup k l := by
  induction l with
  | nil => rfl
  | cons a t ih =>
    by_cases hk' : a.1 = k'
    · have h1 : ¬ (k' = k) := fun hh => h hh.symm
      have h2 : ¬ (a.1 = k) := by rw [hk']; exact h1
      simp only [List.map_cons, hk', if_true, alookup, h1, h2, if_false]
      exact ih
    · simp only [List.map_cons, hk', if_false, alookup]
      by_cases hk : a.1 = k
      · simp [hk]
      · simp only [hk, if_false]
        exact ih

theorem alookup_aset_self {β : Type} (k : String) (v : β) (l : List (String × β)) :
    alookup k (aset k v l) = some v := by
  rw [aset]
  by_cases h : (alookup k l).isSome
  · rw [if_pos h]
    induction l with
    | nil => simp [alookup] at h
    | cons a t ih =>
      by_cases hk : a.1 = k
      · simp [alookup, List.map_cons, hk]
      · simp only [List.map_cons, hk, if_false, alookup]
        apply ih
        simpa [alookup, hk] using h
  · rw [if_neg h]
    have hn : alookup k l = none := by
      cases hl : alookup k l
      · rfl
      · exact absurd (by simp [hl]) h
    rw [alookup_append_of_none _ hn]
    simp [alookup]

theorem alookup_aset_ne {β : Type} {k k' : String} (v : β) (l : List (String × β))
    (h : k ≠ k') : alookup k (aset k' v l) = alookup k l := by
  rw [aset]
  by_cases hp : (alookup k' l).isSome
  · rw [if_pos hp]
    exact alookup_map_update v l h
  · rw [if_neg hp]
    cases hl : alookup k l with
    | none =>
      rw [alookup_append_of_none _ hl]
      simp [alookup, Ne.symm h]
    | some w => rw [alookup_append_of_some _ hl]

theorem keys_aset_of_isSome {β : Type} {k : String} (v : β) (l : List (String × β))
    (h : (alookup k l).isSome) :
    (aset k v l).map Prod.fst = l.map Prod.fst := by
  rw [aset, if_pos h, List.map_map]
  apply List.map_congr_left
  intro a _
  by_cases hk : a.1 = k
  · simp [Function.comp, hk]
  · simp [Function.comp, hk]

/-! ### History-store lemmas -/

theorem archive_totalTrips (s : HistorySummary) (t : Trip) :
    (archive_trip_to_summary s t).totalTrips = s.totalTrips := rfl

theorem update_summary_totalTrips (s : HistorySummary) (l : List Trip) (now : ℚ) :
    (update_summary s l now).totalTrips = s.totalTrips := by
  unfold update_summary
  dsimp only
  split_ifs <;> rfl

theorem update_summary_favs (s : HistorySummary) (l : List Trip) (now : ℚ)
    (h : l ≠ []) :
    (update_summary s l now).favoriteDestinations =
      mostCommon (l.map (fun t => t.destination)) 10 := by
  unfold update_summary
  dsimp only
  have hne : l.isEmpty = false := by
    cases l
    · exact absurd rfl h
    · rfl
  rw [hne]
  simp only [Bool.false_eq_true, if_false]

/-- Tail step of the bounded window: popping the head of a full window and
appending commutes with dropping one more from the full list. -/
theorem window_tail_step (C : List Trip) (a : Trip) (h : 10 ≤ C.length) :
    (C.drop (C.length - 10) ++ [a]).tail = (C ++ [a]).drop (C.length + 1 - 10) := by
  have hlen : (C.drop (C.length - 10)).length = 10 := by
    rw [List.length_drop]
    omega
  obtain ⟨x, xs, hx⟩ := List.exists_cons_of_ne_nil
    (by intro hh; rw [hh] at hlen; simp at hlen :
      C.drop (C.length - 10) ≠ [])
  have h1 : (C ++ [a]).drop (C.length + 1 - 10) = C.drop (C.length + 1 - 10) ++ [a] := by
    apply List.drop_append_of_le_length
    omega
  have h2 : C.drop (C.length + 1 - 10) = (C.drop (C.length - 10)).tail := by
    rw [List.tail_drop]
    congr 1
    omega
  rw [h1, h2, hx]
  rfl

/-- Equation form of the per-record `add_trip` transition for a record whose
window is the 10-suffix of the already-created trip list `C` and whose trip
counter is (as the source keeps it) 0: the new window is the 10-suffix of
`C ++ [new_trip]`, and the summary is recomputed over it from some
intermediate summary with the same (zero) `totalTrips`. -/
theorem add_trip_record_eq (rec : UserRecord) (user_id : String) (inp : TripInput)
    (now : ℚ) (C : List Trip)
    (h0 : rec.historySummary.totalTrips = 0)
    (hC : rec.recentTrips = C.drop (C.length - 10)) :
    ∃ S1 : HistorySummary, S1.totalTrips = 0 ∧
      add_trip_record rec user_id inp now =
        { rec with
          recentTrips := (C ++ [mkNewTrip user_id 0 inp now]).drop (C.length + 1 - 10),
          historySummary := update_summary S1
            ((C ++ [mkNewTrip user_id 0 inp now]).drop (C.length + 1 - 10)) now } := by
  by_cases hlen : 10 ≤ C.length
  · -- full window: evict the oldest
    have hlen10 : (C.drop (C.length - 10)).length = 10 := by
      rw [List.length_drop]; omega
    obtain ⟨x, xs, hx⟩ := List.exists_cons_of_ne_nil
      (by intro hh; rw [hh] at hlen10; simp at hlen10 :
        C.drop (C.length - 10) ≠ [])
    refine ⟨archive_trip_to_summary rec.historySummary x, by rw [archive_totalTrips]; exact h0, ?_⟩
    have htail : xs ++ [mkNewTrip user_id 0 inp now] =
        (C ++ [mkNewTrip user_id 0 inp now]).drop (C.length + 1 - 10) := by
      have := window_tail_step C (mkNewTrip user_id 0 inp now) hlen
      rw [hx] at this
      simpa using this
    unfold add_trip_record
    dsimp only
    rw [h0, hC, hx, List.cons_append]
    have hgt : MAX_RECENT_TRIPS < (x :: (xs ++ [mkNewTrip user_id 0 inp now])).length := by
      have hxs : xs.length = 9 := by
        have : (x :: xs).length = 10 := by rw [← hx]; exact hlen10
        simpa using this
      simp only [List.length_cons, List.length_append, List.length_singleton, hxs,
        MAX_RECENT_TRIPS]
      omega
    rw [if_pos hgt]
    dsimp only
    rw [htail]
  · -- window not yet full: no eviction
    have hz : C.length - 10 = 0 := by omega
    have hz' : C.length + 1 - 10 = 0 := by omega
    rw [hz, List.drop_zero] at hC
    refine ⟨rec.historySummary, h0, ?_⟩
    unfold add_trip_record
    dsimp only
    rw [h0, hC, hz', List.drop_zero]
    have hle : ¬ (MAX_RECENT_TRIPS < (C ++ [mkNewTrip user_id 0 inp now]).length) := by
      simp only [List.length_append, List.length_singleton, MAX_RECENT_TRIPS]
      omega
    rw [if_neg hle]

theorem createdTrips_length (user_id : String) (inputs : List (TripInput × ℚ)) :
    (createdTrips user_id inputs).length = inputs.length := by
  simp [createdTrips]

theorem createdTrips_append (user_id : String) (l₁ l₂ : List (TripInput × ℚ)) :
    createdTrips user_id (l₁ ++ l₂) = createdTrips user_id l₁ ++ createdTrips user_id l₂ := by
  simp [createdTrips]

/-- Invariant of the per-user history record along a sequence of `add_trip`
calls: the record exists once something was added, its counter stays 0, its
window is the 10-suffix of all created trips, and its favorite destinations
are the frequency ranking of the current window. -/
def HistInv (user_id : String) (store : HistoryStore)
    (processed : List (TripInput × ℚ)) : Prop :=
  (processed = [] ∧ store = emptyStore) ∨
  (∃ rec, alookup user_id store.users = some rec ∧
    rec.historySummary.totalTrips = 0 ∧
    rec.recentTrips = (createdTrips user_id processed).drop
      ((createdTrips user_id processed).length - 10) ∧
    rec.historySummary.favoriteDestinations =
      mostCommon (rec.recentTrips.map (fun t => t.destination)) 10)

theorem add_trip_inv (user_id : String) (store : HistoryStore)
    (processed : List (TripInput × ℚ)) (inp : TripInput) (now : ℚ)
    (h : HistInv user_id store processed) :
    HistInv user_id (add_trip store user_id inp now) (processed ++ [(inp, now)]) := by
  have hwlen : ∀ (C : List Trip) (a : Trip),
      ((C ++ [a]).drop (C.length + 1 - 10)).length = min (C.length + 1) 10 := by
    intro C a
    rw [List.length_drop]
    simp only [List.length_append, List.length_singleton]
    omega
  rcases h with ⟨hp, hs⟩ | ⟨rec, hl, h0, hC, _⟩
  · -- very first add for this user
    subst hp
    subst hs
    obtain ⟨S1, hS1, heq⟩ := add_trip_record_eq (newUserRecord user_id now) user_id inp now []
      rfl rfl
    right
    refine ⟨add_trip_record (newUserRecord user_id now) user_id inp now, ?_, ?_, ?_, ?_⟩
    · unfold add_trip
      dsimp only
      have hnone : alookup user_id (emptyStore : HistoryStore).users = none := rfl
      rw [hnone]
      simp only [Option.isSome_none, Bool.false_eq_true, if_false]
      have hone : alookup user_id ((emptyStore : HistoryStore).users ++
          [(user_id, newUserRecord user_id now)]) = some (newUserRecord user_id now) := by
        simp [emptyStore, alookup]
      rw [hone]
      simp only [Option.getD_some]
      exact alookup_aset_self _ _ _
    · rw [heq]
      dsimp only
      rw [update_summary_totalTrips]
      exact hS1
    · rw [heq]
      dsimp only
      simp [createdTrips]
    · rw [heq]
      dsimp only
      apply update_summary_favs
      simp
  · -- subsequent add
    obtain ⟨S1, hS1, heq⟩ := add_trip_record_eq rec user_id inp now
      (createdTrips user_id processed) h0 hC
    right
    refine ⟨add_trip_record rec user_id inp now, ?_, ?_, ?_, ?_⟩
    · unfold add_trip
      dsimp only
      rw [hl]
      simp only [Option.isSome_some, if_true]
      rw [hl]
      simp only [Option.getD_some]
      exact alookup_aset_self _ _ _
    · rw [heq]
      dsimp only
      rw [update_summary_totalTrips]
      exact hS1
    · rw [heq]
      dsimp only
      rw [createdTrips_append]
      have hsingle : createdTrips user_id [(inp, now)] = [mkNewTrip user_id 0 inp now] := rfl
      rw [hsingle]
      congr 1
      simp only [List.length_append, List.length_singleton]
    · rw [heq]
      dsimp only
      apply update_summary_favs
      intro hh
      have := hwlen (createdTrips user_id processed) (mkNewTrip user_id 0 inp now)
      rw [hh] at this
      simp only [List.length_nil] at this
      omega

theorem addAll_inv (user_id : String) (inputs : List (TripInput × ℚ)) :
    ∀ (store : HistoryStore) (processed : List (TripInput × ℚ)),
      HistInv user_id store processed →
      HistInv user_id (addAll store user_id inputs) (processed ++ inputs) := by
  induction inputs with
  | nil =>
    intro store processed h
    simpa [addAll] using h
  | cons q rest ih =>
    intro store processed h
    have h1 := add_trip_inv user_id store processed q.1 q.2 h
    have h2 := ih (add_trip store user_id q.1 q.2) (processed ++ [(q.1, q.2)]) h1
    simpa [addAll, List.append_assoc] using h2

/-! ### uniqueFirst / mostCommon membership lemmas -/

theorem length_uniqueFirst_le {α : Type} [DecidableEq α] (l : List α) :
    (uniqueFirst l).length ≤ l.length := by
  have key : ∀ (n : ℕ) (l : List α), l.length ≤ n → (uniqueFirst l).length ≤ l.length := by
    intro n
    induction n with
    | zero =>
      intro l hl
      rw [List.length_eq_zero.mp (Nat.le_zero.mp hl)]
      simp [uniqueFirst]
    | succ n ih =>
      intro l hl
      cases l with
      | nil => simp [uniqueFirst]
      | cons a t =>
        rw [uniqueFirst]
        simp only [List.length_cons]
        apply Nat.succ_le_succ
        calc (uniqueFirst (t.filter (fun b => b ≠ a))).length
            ≤ (t.filter (fun b => b ≠ a)).length := by
              apply ih
              exact le_trans (List.length_filter_le _ _) (Nat.succ_le_succ_iff.mp hl)
          _ ≤ t.length := List.length_filter_le _ _
  exact key l.length l (le_refl _)

theorem mem_uniqueFirst {α : Type} [DecidableEq α] {a : α} :
    ∀ {l : List α}, a ∈ uniqueFirst l ↔ a ∈ l := by
  have key : ∀ (n : ℕ) (l : List α), l.length ≤ n → (a ∈ uniqueFirst l ↔ a ∈ l) := by
    intro n
    induction n with
    | zero =>
      intro l hl
      rw [List.length_eq_zero.mp (Nat.le_zero.mp hl)]
      simp [uniqueFirst]
    | succ n ih =>
      intro l hl
      cases l with
      | nil => simp [uniqueFirst]
      | cons b t =>
        rw [uniqueFirst]
        simp only [List.mem_cons]
        have ht : (t.filter (fun x => x ≠ b)).length ≤ n :=
          le_trans (List.length_filter_le _ _) (Nat.succ_le_succ_iff.mp hl)
        rw [ih _ ht, List.mem_filter]
        simp only [ne_eq, decide_not, Bool.not_eq_true', decide_eq_false_iff_not]
        constructor
        · rintro (rfl | ⟨h1, _⟩)
          · exact Or.inl rfl
          · exact Or.inr h1
        · rintro (rfl | h1)
          · exact Or.inl rfl
          · by_cases hb : a = b
            · exact Or.inl hb
            · exact Or.inr ⟨h1, hb⟩
  intro l
  exact key l.length l (le_refl _)

theorem mem_mostCommon_iff {l : List String} {n : ℕ} {a : String}
    (h : (uniqueFirst l).length ≤ n) :
    a ∈ mostCommon l n ↔ a ∈ l := by
  unfold mostCommon
  rw [List.take_of_length_le]
  · constructor
    · intro hm
      obtain ⟨p, hp, hpa⟩ := List.mem_map.mp hm
      have hp2 : p ∈ (uniqueFirst l).map (fun a => (a, l.count a)) :=
        (List.mergeSort_perm _ _).subset hp
      obtain ⟨b, hb, hbp⟩ := List.mem_map.mp hp2
      rw [← hbp] at hpa
      simp only at hpa
      rw [← hpa]
      exact mem_uniqueFirst.mp hb
    · intro hm
      apply List.mem_map.mpr
      refine ⟨(a, l.count a), ?_, rfl⟩
      apply (List.mergeSort_perm _ _).mem_iff.mpr
      exact List.mem_map.mpr ⟨a, mem_uniqueFirst.mpr hm, rfl⟩
  · rw [List.length_mergeSort, List.length_map]
    exact h

/-! ### Cache-probe and sorting lemmas -/

theorem cacheGet_of_lookup_none {Ex : Type} (s : CacheState Ex)
    (destination preferences : String) (now : ℚ)
    (h : alookup (generate_key destination preferences) s.cache = none) :
    cacheGet s destination preferences now = (none, s) := by
  unfold cacheGet
  dsimp only
  rw [h]

theorem cacheGet_fst {Ex : Type} (s : CacheState Ex)
    (destination preferences : String) (now : ℚ) :
    (cacheGet s destination preferences now).1 =
      alookup (generate_key destination preferences) s.cache := by
  unfold cacheGet
  dsimp only
  cases h : alookup (generate_key destination preferences) s.cache with
  | none => rfl
  | some v => rfl

/-- The head of the descending stable sort is a maximal-score element. -/
theorem sortScoredTrips_head_max (l : List ScoredTrip) (hne : l ≠ []) :
    ∃ top tl, sortScoredTrips l = top :: tl ∧ top ∈ l ∧
      ∀ x ∈ l, x.similarity_score ≤ top.similarity_score := by
  have hperm := List.mergeSort_perm l
    (fun x y => decide (y.similarity_score ≤ x.similarity_score))
  have hsorted := @List.sorted_mergeSort ScoredTrip
    (fun x y => decide (y.similarity_score ≤ x.similarity_score))
    (fun a b c hab hbc => by
      simp only [decide_eq_true_iff] at hab hbc ⊢
      exact le_trans hbc hab)
    (fun a b => by
      simp only [Bool.or_eq_true, decide_eq_true_iff]
      exact le_total b.similarity_score a.similarity_score)
    l
  have hperm2 : (sortScoredTrips l).Perm l := hperm
  have hsorted2 : List.Pairwise
      (fun a b => (fun x y => decide (y.similarity_score ≤ x.similarity_score)) a b = true)
      (sortScoredTrips l) := hsorted
  cases hms : sortScoredTrips l with
  | nil =>
    rw [hms] at hperm2
    exact absurd hperm2.symm.eq_nil hne
  | cons top tl =>
    refine ⟨top, tl, rfl, ?_, ?_⟩
    · apply hperm2.subset
      rw [hms]
      exact List.mem_cons_self _ _
    · intro x hx
      have hx2 : x ∈ top :: tl := by
        rw [← hms]
        exact (hperm2.mem_iff).mpr hx
      rcases List.mem_cons.mp hx2 with rfl | hx3
      · exact le_refl _
      · rw [hms] at hsorted2
        have := (List.pairwise_cons.mp hsorted2).1 x hx3
        simpa using this

/-- Cache-miss branch of `select_examples_smart`, best score exactly at or
above the HIGH threshold: the full strategy with the single best trip. -/
theorem selectFromHistory_high (c : CacheState ScoredTrip) (store : HistoryStore)
    (destination preferences user_id : String) (max_examples : ℕ) (now : ℚ) (q : ℚ)
    (hex : ∃ t ∈ get_recent_trips store user_id none now,
      calculate_similarity_score t destination preferences = q)
    (hub : ∀ t ∈ get_recent_trips store user_id none now,
      calculate_similarity_score t destination preferences ≤ q)
    (hq : HIGH_SIMILARITY_THRESHOLD ≤ q) :
    (selectFromHistory c store destination preferences user_id max_examples now).1.strategy =
        Strategy.full ∧
      ∃ t ∈ get_recent_trips store user_id none now,
        calculate_similarity_score t destination preferences = q ∧
        (selectFromHistory c store destination preferences user_id max_examples
          now).1.examples = ExamplesPayload.trips [⟨t, q⟩] := by
  obtain ⟨t0, ht0, hq0⟩ := hex
  have hne : get_recent_trips store user_id none now ≠ [] := by
    intro hh
    rw [hh] at ht0
    exact absurd ht0 (List.not_mem_nil t0)
  have hsne : scoredTrips (get_recent_trips store user_id none now) destination preferences ≠ [] := by
    intro hh
    apply hne
    unfold scoredTrips at hh
    exact List.map_eq_nil.mp hh
  obtain ⟨top, tl, hms, htop, hmax⟩ := sortScoredTrips_head_max _ hsne
  obtain ⟨t1, ht1, htop1⟩ := List.mem_map.mp htop
  have htopq : top.similarity_score = q := by
    apply le_antisymm
    · rw [← htop1]
      exact hub t1 ht1
    · rw [← hq0]
      exact hmax ⟨t0, calculate_similarity_score t0 destination preferences⟩
        (List.mem_map.mpr ⟨t0, ht0, rfl⟩)
  unfold selectFromHistory
  dsimp only
  have hie : (get_recent_trips store user_id none now).isEmpty = false := by
    cases hcl : get_recent_trips store user_id none now
    · exact absurd hcl hne
    · rfl
  rw [hie]
  simp only [Bool.false_eq_true, false_and, if_false]
  rw [hms]
  dsimp only
  rw [htopq, if_pos hq]
  refine ⟨rfl, t1, ht1, ?_, ?_⟩
  · rw [← htop1] at htopq
    exact htopq
  · have hc1 : calculate_similarity_score t1 destination preferences = q := by
      rw [← htop1] at htopq
      exact htopq
    have heq : top = ⟨t1, q⟩ := by
      rw [← htop1, hc1]
    rw [← heq]

/-- Cache-miss branch of `select_examples_smart`, best score in the MEDIUM
band (at or above 0.40, below 0.70): the condensed strategy with the top
`min(max_examples, available)` trips. -/
theorem selectFromHistory_medium (c : CacheState ScoredTrip) (store : HistoryStore)
    (destination preferences user_id : String) (max_examples : ℕ) (now : ℚ) (q : ℚ)
    (hex : ∃ t ∈ get_recent_trips store user_id none now,
      calculate_similarity_score t destination preferences = q)
    (hub : ∀ t ∈ get_recent_trips store user_id none now,
      calculate_similarity_score t destination preferences ≤ q)
    (hq1 : MEDIUM_SIMILARITY_THRESHOLD ≤ q) (hq2 : q < HIGH_SIMILARITY_THRESHOLD) :
    (selectFromHistory c store destination preferences user_id max_examples now).1.strategy =
        Strategy.condensed ∧
      (selectFromHistory c store destination preferences user_id max_examples
          now).1.examples =
        ExamplesPayload.trips
          ((sortScoredTrips (scoredTrips (get_recent_trips store user_id none now)
              destination preferences)).take
            (min max_examples
              (sortScoredTrips (scoredTrips (get_recent_trips store user_id none now)
                destination preferences)).length)) := by
  obtain ⟨t0, ht0, hq0⟩ := hex
  have hne : get_recent_trips store user_id none now ≠ [] := by
    intro hh
    rw [hh] at ht0
    exact absurd ht0 (List.not_mem_nil t0)
  have hsne : scoredTrips (get_recent_trips store user_id none now) destination preferences ≠ [] := by
    intro hh
    apply hne
    unfold scoredTrips at hh
    exact List.map_eq_nil.mp hh
  obtain ⟨top, tl, hms, htop, hmax⟩ := sortScoredTrips_head_max _ hsne
  obtain ⟨t1, ht1, htop1⟩ := List.mem_map.mp htop
  have htopq : top.similarity_score = q := by
    apply le_antisymm
    · rw [← htop1]
      exact hub t1 ht1
    · rw [← hq0]
      exact hmax ⟨t0, calculate_similarity_score t0 destination preferences⟩
        (List.mem_map.mpr ⟨t0, ht0, rfl⟩)
  unfold selectFromHistory
  dsimp only
  have hie : (get_recent_trips store user_id none now).isEmpty = false := by
    cases hcl : get_recent_trips store user_id none now
    · exact absurd hcl hne
    · rfl
  rw [hie]
  simp only [Bool.false_eq_true, false_and, if_false]
  rw [hms]
  dsimp only
  rw [htopq, if_neg (not_le.mpr hq2), if_pos hq1]
  exact ⟨rfl, rfl⟩

/-! ### Claim C1 -/

/-- C1: for every trip record and every destination/preferences pair,
`calculate_similarity_score` returns a value in `[0, 1]` (destination Jaccard
weighted 0.4, stopword-filtered preference Jaccard weighted 0.4, satisfaction
bonus `0.2*rating/5` only when `rating > 0`, summed and capped at 1.0); the
embedding is a pure function, so the call has no side effects. -/
theorem similarity_score_in_unit_interval (trip : Trip) (destination preferences : String) :
    0 ≤ calculate_similarity_score trip destination preferences ∧
      calculate_similarity_score trip destination preferences ≤ 1 := by
  unfold calculate_similarity_score
  refine ⟨le_min ?_ (by norm_num), min_le_right _ _⟩
  refine add_nonneg (add_nonneg ?_ ?_) ?_
  · split_ifs with h
    · positivity
    · exact le_refl 0
  · split_ifs with h
    · positivity
    · exact le_refl 0
  · split_ifs with h
    · have hr : (0 : ℚ) ≤ (trip.satisfaction_rating : ℚ) := by exact_mod_cast h.le
      positivity
    · exact le_refl 0

/-! ### Claim C10 -/

/-- C10: when the fingerprint of `(destination, preferences)` is not in the
cache, `ExampleCache.get` returns `none` and the entire state — entry map,
access order, stats map, and persistence-write count — is unchanged. -/
theorem cache_get_miss_is_pure {Ex : Type} (s : CacheState Ex)
    (destination preferences : String) (now : ℚ)
    (h : alookup (generate_key destination preferences) s.cache = none) :
    cacheGet s destination preferences now = (none, s) := by
  unfold cacheGet
  dsimp only
  rw [h]

/-- Witness for C10 at a concrete empty cache. -/
theorem cache_get_miss_is_pure_witness :
    alookup (generate_key "tokyo" "sushi") (emptyCache String 50).cache = none ∧
      cacheGet (emptyCache String 50) "tokyo" "sushi" 0 = (none, emptyCache String 50) :=
  ⟨rfl, cache_get_miss_is_pure _ _ _ _ rfl⟩

/-! ### Claim C8 -/

/-- C8 counterexample: "bob" is unknown to `wStoreDefaultPopulated`, yet
`get_user_data` does not return the canonical empty default record — it
returns the stored (non-empty) `default_user` record. -/
theorem get_user_data_unknown_not_canonical :
    alookup "bob" wStoreDefaultPopulated.users = none ∧
      (get_user_data wStoreDefaultPopulated "bob" 0).recentTrips ≠ [] := by
  constructor
  · decide
  · decide

/-- C8 (amended): for an unknown `user_id`, `get_user_data` returns the stored
`default_user` record when one exists, and the canonical empty default record
otherwise; it never raises (it is a total function). -/
theorem get_user_data_unknown_falls_back (store : HistoryStore) (user_id : String) (now : ℚ)
    (h : alookup user_id store.users = none) :
    get_user_data store user_id now =
      (alookup "default_user" store.users).getD (defaultGuestRecord now) := by
  unfold get_user_data
  rw [h]

/-- Witness for the amended C8 at a concrete store and unknown id. -/
theorem get_user_data_unknown_falls_back_witness :
    alookup "bob" wStoreDefaultPopulated.users = none ∧
      get_user_data wStoreDefaultPopulated "bob" 0 =
        (alookup "default_user" wStoreDefaultPopulated.users).getD (defaultGuestRecord 0) :=
  ⟨by decide, get_user_data_unknown_falls_back _ _ _ (by decide)⟩

/-! ### Claim C9 -/

/-- C9 counterexample: user "u" of `wStoreTwoTrips` has window
[rome-trip, oslo-trip] (oslo most recent). `get_recent_trips` with limit 1
returns the OLDEST trip (rome), not the single most-recent trip (oslo). -/
theorem get_recent_trips_returns_oldest :
    (get_recent_trips wStoreTwoTrips "u" (some 1) 0).map Trip.destination = ["rome"] ∧
      ((get_user_data wStoreTwoTrips "u" 0).recentTrips.map Trip.destination).getLast? =
        some "oslo" := by
  constructor
  · decide
  · decide

/-- C9 (amended): `get_recent_trips(user_id, k)` returns the FIRST
`min(k, n)` trips of the window — the `k` oldest-appended — in insertion
order (a prefix of the window); with the limit omitted it returns the whole
window. -/
theorem get_recent_trips_takes_prefix (store : HistoryStore) (user_id : String)
    (k : ℕ) (now : ℚ) :
    get_recent_trips store user_id (some k) now =
        (get_user_data store user_id now).recentTrips.take k ∧
      (get_recent_trips store user_id (some k) now).length =
        min k (get_user_data store user_id now).recentTrips.length ∧
      (get_recent_trips store user_id (some k) now) ++
          (get_user_data store user_id now).recentTrips.drop k =
        (get_user_data store user_id now).recentTrips ∧
      get_recent_trips store user_id none now =
        (get_user_data store user_id now).recentTrips := by
  refine ⟨rfl, ?_, ?_, rfl⟩
  · simp [get_recent_trips, List.length_take]
  · simp [get_recent_trips, List.take_append_drop]

/-! ### Claim C7 -/

/-- C7 (code bug): `_update_summary` line 292 assigns `totalTrips` to itself,
so the per-user counter never advances. After two `add_trip` calls for user
"u", both stored trips carry the SAME id `"trip_u_1"` and `totalTrips` is
still 0 — trip ids are neither unique nor monotonically assigned, and the
`totalTrips` bookkeeping does not track the number of added trips. -/
theorem add_trip_ids_collide :
    ((alookup "u" (addAll emptyStore "u" [(wInput "rome", 0), (wInput "oslo", 1)]).users).map
        (fun r => (r.recentTrips.map Trip.id, r.historySummary.totalTrips))) =
      some (["trip_u_1", "trip_u_1"], 0) := by
  decide

/-! ### Claim C5 -/

/-- C5: for every user and every sequence of `add_trip` calls starting from an
empty store, the recent window equals the 10-suffix of the list of created
trips in creation order (each call appends at the end; beyond 10 the oldest is
removed first), so it holds `min(n, 10)` trips and never more than 10. -/
theorem recent_window_bounded_fifo (user_id : String) (inputs : List (TripInput × ℚ)) :
    (get_user_data (addAll emptyStore user_id inputs) user_id 0).recentTrips =
        (createdTrips user_id inputs).drop (inputs.length - 10) ∧
      (get_user_data (addAll emptyStore user_id inputs) user_id 0).recentTrips.length =
        min inputs.length 10 ∧
      (get_user_data (addAll emptyStore user_id inputs) user_id 0).recentTrips.length ≤ 10 := by
  have h := addAll_inv user_id inputs emptyStore [] (Or.inl ⟨rfl, rfl⟩)
  rw [List.nil_append] at h
  rcases h with ⟨hp, hs⟩ | ⟨rec, hl, _, hC, _⟩
  · subst hp
    exact ⟨rfl, rfl, Nat.zero_le 10⟩
  · have hg : get_user_data (addAll emptyStore user_id inputs) user_id 0 = rec := by
      unfold get_user_data
      rw [hl]
    have hlen : (createdTrips user_id inputs).length = inputs.length :=
      createdTrips_length _ _
    rw [hg, hC, hlen]
    refine ⟨rfl, ?_, ?_⟩
    · rw [List.length_drop, hlen]
      omega
    · rw [List.length_drop, hlen]
      omega

/-! ### Claim C6 -/

/-- C6 counterexample: after 11 `add_trip` calls for user "u" (first
destination "z", then ten times "p"), the first trip HAS been evicted — the
window holds the ten "p" trips — and the archival step did add "z" to
`favoriteDestinations`, but `_update_summary` then recomputed that list from
the current window alone, so "z" is NOT in `favoriteDestinations`. -/
theorem archived_destination_not_in_favorites :
    ((createdTrips "u" wElevenInputs).map (fun t => t.destination)).head? = some "z" ∧
      ((get_user_data (addAll emptyStore "u" wElevenInputs) "u" 0).recentTrips.map
        (fun t => t.destination)) = List.replicate 10 "p" ∧
      "z" ∉ (get_summary (addAll emptyStore "u" wElevenInputs) "u" 0).favoriteDestinations := by
  have h := addAll_inv "u" wElevenInputs emptyStore [] (Or.inl ⟨rfl, rfl⟩)
  rw [List.nil_append] at h
  rcases h with ⟨hp, _⟩ | ⟨rec, hl, _, hC, hf⟩
  · exact absurd hp (by decide)
  · have hg : get_user_data (addAll emptyStore "u" wElevenInputs) "u" 0 = rec := by
      unfold get_user_data
      rw [hl]
    have hdrop : (createdTrips "u" wElevenInputs).length - 10 = 1 := by decide
    rw [hdrop] at hC
    have hw : rec.recentTrips.map (fun t => t.destination) = List.replicate 10 "p" := by
      rw [hC]
      decide
    refine ⟨by decide, by rw [hg]; exact hw, ?_⟩
    unfold get_summary
    rw [hg, hf]
    intro hmem
    have hb : (uniqueFirst (rec.recentTrips.map (fun t => t.destination))).length ≤ 10 := by
      apply le_trans (length_uniqueFirst_le _)
      rw [hw]
      simp
    have := (mem_mostCommon_iff hb).mp hmem
    rw [hw] at this
    exact absurd this (by decide)

/-- C6 (amended): after 11 `add_trip` calls from an empty record the 1st trip
is evicted from the recent window (which becomes exactly trips 2–11) and is
passed to the archival step, but the subsequent summary recomputation
overwrites `favoriteDestinations` with the frequency ranking of the current
window, so the 1st trip's destination appears there if and only if it is also
the destination of one of trips 2–11. -/
theorem eleventh_add_evicts_but_summary_overrides (user_id : String)
    (inputs : List (TripInput × ℚ)) (q0 : TripInput × ℚ)
    (hlen : inputs.length = 11) (hhead : inputs.head? = some q0) :
    (get_user_data (addAll emptyStore user_id inputs) user_id 0).recentTrips =
        (createdTrips user_id inputs).drop 1 ∧
      (q0.1.destination ∈
          (get_summary (addAll emptyStore user_id inputs) user_id 0).favoriteDestinations ↔
        q0.1.destination ∈
          ((createdTrips user_id inputs).drop 1).map (fun t => t.destination)) := by
  have h := addAll_inv user_id inputs emptyStore [] (Or.inl ⟨rfl, rfl⟩)
  rw [List.nil_append] at h
  rcases h with ⟨hp, _⟩ | ⟨rec, hl, _, hC, hf⟩
  · rw [hp] at hlen
    simp at hlen
  · have hg : get_user_data (addAll emptyStore user_id inputs) user_id 0 = rec := by
      unfold get_user_data
      rw [hl]
    have hcl : (createdTrips user_id inputs).length = 11 := by
      rw [createdTrips_length]
      exact hlen
    have hdrop : (createdTrips user_id inputs).length - 10 = 1 := by omega
    rw [hdrop] at hC
    refine ⟨by rw [hg]; exact hC, ?_⟩
    unfold get_summary
    rw [hg, hf, hC]
    apply mem_mostCommon_iff
    apply le_trans (length_uniqueFirst_le _)
    rw [List.length_map, List.length_drop, hcl]

/-- Witness for the amended C6 at the concrete eleven-input sequence. -/
theorem eleventh_add_evicts_witness :
    wElevenInputs.length = 11 ∧
      ((get_user_data (addAll emptyStore "u" wElevenInputs) "u" 0).recentTrips =
          (createdTrips "u" wElevenInputs).drop 1 ∧
        ((wInput "z").destination ∈
            (get_summary (addAll emptyStore "u" wElevenInputs) "u" 0).favoriteDestinations ↔
          (wInput "z").destination ∈
            ((createdTrips "u" wElevenInputs).drop 1).map (fun t => t.destination))) :=
  ⟨by decide,
    eleventh_add_evicts_but_summary_overrides "u" wElevenInputs (wInput "z", 0)
      (by decide) rfl⟩

/-! ### Claim C2 -/

/-- On a cache miss (no entry, or a falsy empty entry, for the fingerprint),
`select_examples_smart` reduces to the history-scoring path, on the cache
state left behind by the probe. -/
theorem select_miss_eq (cache : CacheState ScoredTrip) (store : HistoryStore)
    (destination preferences user_id : String) (max_examples : ℕ) (now : ℚ)
    (hmiss : alookup (generate_key destination preferences) cache.cache = none ∨
      alookup (generate_key destination preferences) cache.cache = some []) :
    ∃ c1, select_examples_smart cache store destination preferences user_id max_examples now =
      selectFromHistory c1 store destination preferences user_id max_examples now := by
  rcases hmiss with h | h
  · refine ⟨cache, ?_⟩
    unfold select_examples_smart
    rw [cacheGet_of_lookup_none cache destination preferences now h]
  · have hfst := cacheGet_fst cache destination preferences now
    rw [h] at hfst
    refine ⟨(cacheGet cache destination preferences now).2, ?_⟩
    unfold select_examples_smart
    cases hcg : cacheGet cache destination preferences now with
    | mk res c1 =>
      rw [hcg] at hfst
      dsimp only at hfst
      subst hfst
      simp only [List.isEmpty_nil, if_true]

/-- C2: both strategy thresholds are inclusive. When the request misses the
example cache and the best similarity score over the user's recent trips is
exactly 0.70, `select_examples_smart` returns strategy "full" with exactly
the best-scoring trip as its single example; when the best score is exactly
0.40 it returns strategy "condensed" (not "summary") with the top
`min(max_examples, available)` trips. -/
theorem strategy_threshold_boundaries :
    (∀ (cache : CacheState ScoredTrip) (store : HistoryStore)
        (destination preferences user_id : String) (max_examples : ℕ) (now : ℚ),
      (alookup (generate_key destination preferences) cache.cache = none ∨
        alookup (generate_key destination preferences) cache.cache = some []) →
      (∃ t ∈ get_recent_trips store user_id none now,
        calculate_similarity_score t destination preferences = 0.70) →
      (∀ t ∈ get_recent_trips store user_id none now,
        calculate_similarity_score t destination preferences ≤ 0.70) →
      ((select_examples_smart cache store destination preferences user_id max_examples
          now).1.strategy = Strategy.full ∧
        ∃ t ∈ get_recent_trips store user_id none now,
          calculate_similarity_score t destination preferences = 0.70 ∧
          (select_examples_smart cache store destination preferences user_id max_examples
            now).1.examples = ExamplesPayload.trips [⟨t, 0.70⟩])) ∧
    (∀ (cache : CacheState ScoredTrip) (store : HistoryStore)
        (destination preferences user_id : String) (max_examples : ℕ) (now : ℚ),
      (alookup (generate_key destination preferences) cache.cache = none ∨
        alookup (generate_key destination preferences) cache.cache = some []) →
      (∃ t ∈ get_recent_trips store user_id none now,
        calculate_similarity_score t destination preferences = 0.40) →
      (∀ t ∈ get_recent_trips store user_id none now,
        calculate_similarity_score t destination preferences ≤ 0.40) →
      ((select_examples_smart cache store destination preferences user_id max_examples
          now).1.strategy = Strategy.condensed ∧
        (select_examples_smart cache store destination preferences user_id max_examples
            now).1.examples =
          ExamplesPayload.trips
            ((sortScoredTrips (scoredTrips (get_recent_trips store user_id none now)
                destination preferences)).take
              (min max_examples
                (sortScoredTrips (scoredTrips (get_recent_trips store user_id none now)
                  destination preferences)).length)))) := by
  constructor
  · intro cache store destination preferences user_id max_examples now hmiss hex hub
    obtain ⟨c1, heq⟩ := select_miss_eq cache store destination preferences user_id
      max_examples now hmiss
    rw [heq]
    exact selectFromHistory_high c1 store destination preferences user_id max_examples
      now 0.70 hex hub (by norm_num [HIGH_SIMILARITY_THRESHOLD])
  · intro cache store destination preferences user_id max_examples now hmiss hex hub
    obtain ⟨c1, heq⟩ := select_miss_eq cache store destination preferences user_id
      max_examples now hmiss
    rw [heq]
    exact selectFromHistory_medium c1 store destination preferences user_id max_examples
      now 0.40 hex hub (by norm_num [MEDIUM_SIMILARITY_THRESHOLD])
      (by norm_num [MEDIUM_SIMILARITY_THRESHOLD, HIGH_SIMILARITY_THRESHOLD])

/-- Witness for C2 at two concrete one-trip stores: a trip scoring exactly
0.70 yields "full" with that trip; a trip scoring exactly 0.40 yields
"condensed". -/
theorem strategy_threshold_boundaries_witness :
    ((alookup (generate_key "paris" "food") (emptyCache ScoredTrip 50).cache = none) ∧
      (∃ t ∈ get_recent_trips wStoreHi "u" none 0,
        calculate_similarity_score t "paris" "food" = 0.70) ∧
      ((select_examples_smart (emptyCache ScoredTrip 50) wStoreHi "paris" "food" "u" 3
          0).1.strategy = Strategy.full ∧
        ∃ t ∈ get_recent_trips wStoreHi "u" none 0,
          calculate_similarity_score t "paris" "food" = 0.70 ∧
          (select_examples_smart (emptyCache ScoredTrip 50) wStoreHi "paris" "food" "u" 3
            0).1.examples = ExamplesPayload.trips [⟨t, 0.70⟩])) ∧
    ((∃ t ∈ get_recent_trips wStoreMid "u" none 0,
        calculate_similarity_score t "paris" "" = 0.40) ∧
      ((select_examples_smart (emptyCache ScoredTrip 50) wStoreMid "paris" "" "u" 3
          0).1.strategy = Strategy.condensed ∧
        (select_examples_smart (emptyCache ScoredTrip 50) wStoreMid "paris" "" "u" 3
            0).1.examples =
          ExamplesPayload.trips
            ((sortScoredTrips (scoredTrips (get_recent_trips wStoreMid "u" none 0)
                "paris" "")).take
              (min 3
                (sortScoredTrips (scoredTrips (get_recent_trips wStoreMid "u" none 0)
                  "paris" "")).length)))) :=
  ⟨⟨by decide, by decide,
      strategy_threshold_boundaries.1 (emptyCache ScoredTrip 50) wStoreHi "paris" "food"
        "u" 3 0 (Or.inl (by decide)) (by decide) (by decide)⟩,
    ⟨by decide,
      strategy_threshold_boundaries.2 (emptyCache ScoredTrip 50) wStoreMid "paris" "" "u"
        3 0 (Or.inl (by decide)) (by decide) (by decide)⟩⟩

/-! ### Claim C3: LRU cache lemmas -/

theorem aerase_append {β : Type} (k : String) (l₁ l₂ : List (String × β)) :
    aerase k (l₁ ++ l₂) = aerase k l₁ ++ aerase k l₂ := by
  induction l₁ with
  | nil => rfl
  | cons a t ih =>
    by_cases hk : a.1 = k
    · simp only [List.cons_append, aerase, hk, if_true]
      exact ih
    · simp only [List.cons_append, aerase, hk, if_false]
      exact congrArg (fun l => a :: l) ih

theorem cacheGet_snd_length {Ex : Type} (s : CacheState Ex)
    (destination preferences : String) (now : ℚ) :
    ((cacheGet s destination preferences now).2).cache.length ≤ s.cache.length ∧
      ((cacheGet s destination preferences now).2).max_size = s.max_size := by
  unfold cacheGet
  dsimp only
  cases h : alookup (generate_key destination preferences) s.cache with
  | none => exact ⟨le_refl _, rfl⟩
  | some v =>
    constructor
    · dsimp only
      simp only [List.length_append, List.length_singleton]
      have hk : (generate_key destination preferences) ∈ s.cache.map Prod.fst := by
        rw [← alookup_isSome_iff, h]
        rfl
      have := length_aerase_lt_of_mem hk
      omega
    · rfl

theorem evictIfOver_of_le {Ex : Type} {m : ℕ} {L : List (String × List Ex)}
    (stats1 : List (String × CacheStats)) (h : L.length ≤ m) :
    evictIfOver m L stats1 = (L, stats1) := by
  unfold evictIfOver
  rw [if_neg (Nat.not_lt.mpr h)]

theorem evictIfOver_of_over {Ex : Type} {m : ℕ} {k0 : String} {v0 : List Ex}
    {t : List (String × List Ex)} (stats1 : List (String × CacheStats))
    (h : m < ((k0, v0) :: t).length) :
    evictIfOver m ((k0, v0) :: t) stats1 =
      (aerase k0 ((k0, v0) :: t), aerase k0 stats1) := by
  unfold evictIfOver
  rw [if_pos h]

theorem evictIfOver_length {Ex : Type} (m : ℕ) (L : List (String × List Ex))
    (stats1 : List (String × CacheStats)) (hL : L.length ≤ m + 1) :
    (evictIfOver m L stats1).1.length ≤ m := by
  unfold evictIfOver
  split_ifs with hlt
  · cases L with
    | nil => simp at hlt
    | cons a t =>
      obtain ⟨lru, v⟩ := a
      dsimp only
      have hmem : lru ∈ ((lru, v) :: t).map Prod.fst := by simp
      have := length_aerase_lt_of_mem hmem
      simp only [List.length_cons] at this hL ⊢
      omega
  · dsimp only
    omega

theorem cachePut_length {Ex : Type} (s : CacheState Ex) (destination preferences : String)
    (examples : List Ex) (sat now : ℚ) (h : s.cache.length ≤ s.max_size) :
    (cachePut s destination preferences examples sat now).cache.length ≤ s.max_size ∧
      (cachePut s destination preferences examples sat now).max_size = s.max_size := by
  refine ⟨?_, rfl⟩
  unfold cachePut
  dsimp only
  apply evictIfOver_length
  simp only [List.length_append, List.length_singleton]
  split_ifs with hp
  · have := length_aerase_le (generate_key destination preferences) s.cache
    omega
  · omega

theorem applyOps_length {Ex : Type} :
    ∀ (ops : List (CacheOp Ex)) (s : CacheState Ex), s.cache.length ≤ s.max_size →
      (applyOps s ops).cache.length ≤ (applyOps s ops).max_size := by
  intro ops
  induction ops with
  | nil =>
    intro s h
    exact h
  | cons op rest ih =>
    intro s h
    have hstep : (applyOp s op).cache.length ≤ (applyOp s op).max_size := by
      cases op with
      | get d p now =>
        obtain ⟨h1, h2⟩ := cacheGet_snd_length s d p now
        unfold applyOp
        rw [h2]
        exact le_trans h1 h
      | put d p ex sat now =>
        obtain ⟨h1, h2⟩ := cachePut_length s d p ex sat now h
        unfold applyOp
        rw [h2]
        exact h1
    have : applyOps s (op :: rest) = applyOps (applyOp s op) rest := by
      unfold applyOps
      rw [List.foldl_cons]
    rw [this]
    exact ih _ hstep

/-- Filling the cache with fresh, pairwise-distinct fingerprints under
capacity simply appends all entries in order (no eviction, fresh stats). -/
theorem putAll_fresh {Ex : Type} :
    ∀ (entries : List (PutArgs Ex)) (s : CacheState Ex),
      (entries.map fp).Nodup →
      (∀ e ∈ entries, alookup (fp e) s.cache = none) →
      (∀ e ∈ entries, alookup (fp e) s.stats = none) →
      s.cache.length + entries.length ≤ s.max_size →
      putAll s entries = { s with
        cache := s.cache ++ entries.map (fun e => (fp e, e.examples)),
        stats := s.stats ++ entries.map (fun e =>
          (fp e, ⟨0, some e.satisfaction_score, e.now, none⟩)),
        writes := s.writes + entries.length } := by
  intro entries
  induction entries with
  | nil =>
    intro s _ _ _ _
    simp [putAll]
  | cons e rest ih =>
    intro s hnd hfc hfs hlen
    have hfc1 : alookup (generate_key e.destination e.preferences) s.cache = none :=
      hfc e (List.mem_cons_self e rest)
    have hfs1 : alookup (generate_key e.destination e.preferences) s.stats = none :=
      hfs e (List.mem_cons_self e rest)
    have hput : putOne s e = { s with
        cache := s.cache ++ [(fp e, e.examples)],
        stats := s.stats ++ [(fp e, ⟨0, some e.satisfaction_score, e.now, none⟩)],
        writes := s.writes + 1 } := by
      unfold putOne cachePut
      dsimp only
      rw [hfc1, hfs1]
      simp only [Option.isSome_none, Bool.false_eq_true, if_false]
      rw [evictIfOver_of_le _ (by
        simp only [List.length_append, List.length_singleton, List.length_cons,
          List.length_nil] at hlen ⊢
        omega)]
      rfl
    have hstep : putAll s (e :: rest) = putAll (putOne s e) rest := by
      unfold putAll
      rw [List.foldl_cons]
    rw [hstep, hput]
    have hmapnd := hnd
    rw [List.map_cons, List.nodup_cons] at hmapnd
    have hne : ∀ e2 ∈ rest, fp e2 ≠ fp e := by
      intro e2 he2 hh
      exact hmapnd.1 (hh ▸ List.mem_map.mpr ⟨e2, he2, rfl⟩)
    have hrest := ih { s with
        cache := s.cache ++ [(fp e, e.examples)],
        stats := s.stats ++ [(fp e, ⟨0, some e.satisfaction_score, e.now, none⟩)],
        writes := s.writes + 1 }
      hmapnd.2
      (by
        intro e2 he2
        dsimp only
        rw [alookup_append_of_none _ (hfc e2 (List.mem_cons_of_mem e he2))]
        simp [alookup, (hne e2 he2).symm])
      (by
        intro e2 he2
        dsimp only
        rw [alookup_append_of_none _ (hfs e2 (List.mem_cons_of_mem e he2))]
        simp [alookup, (hne e2 he2).symm])
      (by
        dsimp only
        simp only [List.length_append, List.length_singleton, List.length_cons,
          List.length_nil] at hlen ⊢
        omega)
    rw [hrest]
    simp only [List.append_assoc, List.singleton_append, List.map_cons, List.length_cons]
    congr 1
    omega

theorem evictIfOver_fst_congr {Ex : Type} (m : ℕ) (L : List (String × List Ex))
    (s1 s2 : List (String × CacheStats)) :
    (evictIfOver m L s1).1 = (evictIfOver m L s2).1 := by
  unfold evictIfOver
  split_ifs with h
  · cases L with
    | nil => rfl
    | cons a t =>
      obtain ⟨k, v⟩ := a
      rfl
  · rfl

/-- The entry list after a `put` is independent of the stats bookkeeping:
delete-then-append at the MRU end, then evict the LRU head if over capacity. -/
theorem cachePut_cache {Ex : Type} (s : CacheState Ex) (destination preferences : String)
    (examples : List Ex) (sat now : ℚ) :
    (cachePut s destination preferences examples sat now).cache =
      (evictIfOver s.max_size
        ((if (alookup (generate_key destination preferences) s.cache).isSome
            then aerase (generate_key destination preferences) s.cache else s.cache) ++
          [(generate_key destination preferences, examples)]) []).1 := by
  unfold cachePut
  dsimp only
  apply evictIfOver_fst_congr

/-- A `get` hit moves the fingerprint's entry to the most-recently-used end. -/
theorem cacheGet_hit_getLast {Ex : Type} (s : CacheState Ex)
    (destination preferences : String) (now : ℚ) (v : List Ex)
    (h : alookup (generate_key destination preferences) s.cache = some v) :
    ((cacheGet s destination preferences now).2).cache.getLast? =
      some (generate_key destination preferences, v) := by
  unfold cacheGet
  dsimp only
  rw [h]
  dsimp only
  exact List.getLast?_concat _

/-- A `put` leaves the fingerprint's entry at the most-recently-used end
(assuming the size invariant and a positive capacity). -/
theorem cachePut_getLast {Ex : Type} (s : CacheState Ex) (destination preferences : String)
    (examples : List Ex) (sat now : ℚ)
    (h : s.cache.length ≤ s.max_size) (hm : 1 ≤ s.max_size) :
    (cachePut s destination preferences examples sat now).cache.getLast? =
      some (generate_key destination preferences, examples) := by
  rw [cachePut_cache]
  by_cases hp : (alookup (generate_key destination preferences) s.cache).isSome
  · rw [if_pos hp]
    have hlt := length_aerase_lt_of_mem (alookup_isSome_iff.mp hp)
    rw [evictIfOver_of_le _ (by
      simp only [List.length_append, List.length_singleton]
      omega)]
    exact List.getLast?_concat _
  · rw [if_neg hp]
    have hnone : alookup (generate_key destination preferences) s.cache = none := by
      cases hl : alookup (generate_key destination preferences) s.cache
      · rfl
      · exact absurd (by simp [hl]) hp
    have hnk := alookup_eq_none_iff.mp hnone
    by_cases hfull : s.cache.length + 1 ≤ s.max_size
    · rw [evictIfOver_of_le _ (by
        simp only [List.length_append, List.length_singleton]
        omega)]
      exact List.getLast?_concat _
    · cases hsc : s.cache with
      | nil =>
        rw [hsc] at hfull
        simp only [List.length_nil] at hfull
        omega
      | cons c0 ct =>
        obtain ⟨k0, v0⟩ := c0
        rw [hsc] at hnk h
        rw [List.cons_append]
        rw [evictIfOver_of_over _ (by
          simp only [List.length_cons, List.length_append, List.length_singleton] at h ⊢
          rw [hsc] at hfull
          simp only [List.length_cons] at hfull
          omega)]
      
        dsimp only
        simp only [aerase, if_pos rfl]
        rw [aerase_append]
        have hne0 : ¬ ((generate_key destination preferences) = k0) := by
          simp only [List.map_cons, List.mem_cons] at hnk
          intro hh
          exact hnk (Or.inl hh)
        have hsingle : aerase k0 [(generate_key destination preferences, examples)] =
            [(generate_key destination preferences, examples)] := by
          simp [aerase, hne0]
        rw [hsingle]
        exact List.getLast?_concat _

/-- A `put` of a fresh fingerprint into a cache exactly at capacity appends
the new entry and evicts the least-recently-used head `k0` from both maps. -/
theorem putOne_fresh_full_eq {Ex : Type} (S : CacheState Ex) (e : PutArgs Ex)
    (k0 : String) (v0 : List Ex) (ct : List (String × List Ex))
    (hS : S.cache = (k0, v0) :: ct)
    (hfc : alookup (fp e) S.cache = none)
    (hfs : alookup (fp e) S.stats = none)
    (hm : S.cache.length = S.max_size) :
    putOne S e = { S with
      cache := aerase k0 (((k0, v0) :: ct) ++ [(fp e, e.examples)]),
      stats := aerase k0 (S.stats ++
        [(fp e, ⟨0, some e.satisfaction_score, e.now, none⟩)]),
      writes := S.writes + 1 } := by
  unfold putOne cachePut
  dsimp only
  have hfc2 : alookup (generate_key e.destination e.preferences) S.cache = none := hfc
  have hfs2 : alookup (generate_key e.destination e.preferences) S.stats = none := hfs
  rw [hfc2, hfs2]
  simp only [Option.isSome_none, Bool.false_eq_true, if_false]
  rw [hS, List.cons_append]
  rw [evictIfOver_of_over _ (by
    rw [hS] at hm
    simp only [List.length_cons, List.length_append, List.length_singleton] at hm ⊢
    omega)]
  rfl

/-- Filling an empty cache of capacity `m` with `m` fresh distinct
fingerprints and then putting one more distinct fingerprint leaves exactly
`m` entries; the first (least-recently-used) fingerprint is evicted from both
the entry map and the stats map, while all later ones are present. -/
theorem fill_over_capacity {Ex : Type} (m : ℕ) (e0 : PutArgs Ex)
    (front : List (PutArgs Ex)) (elast : PutArgs Ex)
    (hlen : (e0 :: front).length = m)
    (hnd : (((e0 :: front) ++ [elast]).map fp).Nodup) :
    (putAll (emptyCache Ex m) ((e0 :: front) ++ [elast])).cache.length = m ∧
      alookup (fp e0) (putAll (emptyCache Ex m) ((e0 :: front) ++ [elast])).cache = none ∧
      alookup (fp e0) (putAll (emptyCache Ex m) ((e0 :: front) ++ [elast])).stats = none ∧
      ∀ e ∈ front ++ [elast],
        (alookup (fp e) (putAll (emptyCache Ex m) ((e0 :: front) ++ [elast])).cache).isSome
          = true := by
  rw [List.map_append, List.nodup_append] at hnd
  obtain ⟨hnd1, -, hdisj⟩ := hnd
  have hκn : ∀ e ∈ e0 :: front, fp e ≠ fp elast := by
    intro e he hh
    exact hdisj (List.mem_map.mpr ⟨e, he, rfl⟩) (by simp [hh])
  have hfold := putAll_fresh (e0 :: front) (emptyCache Ex m) hnd1
    (fun e _ => rfl) (fun e _ => rfl)
    (by simp [emptyCache, hlen])
  have hsplit : putAll (emptyCache Ex m) ((e0 :: front) ++ [elast]) =
      putOne (putAll (emptyCache Ex m) (e0 :: front)) elast := by
    unfold putAll
    rw [List.foldl_append]
    rfl
  -- the filled state
  have hScache : (putAll (emptyCache Ex m) (e0 :: front)).cache =
      (fp e0, e0.examples) :: front.map (fun e => (fp e, e.examples)) := by
    rw [hfold]
    rfl
  have hSkeys : ((putAll (emptyCache Ex m) (e0 :: front)).cache).map Prod.fst =
      (e0 :: front).map fp := by
    rw [hScache]
    simp [List.map_map, Function.comp]
  have hSstatkeys : ((putAll (emptyCache Ex m) (e0 :: front)).stats).map Prod.fst =
      (e0 :: front).map fp := by
    rw [hfold]
    simp [List.map_map, Function.comp, emptyCache]
  have hfc : alookup (fp elast) (putAll (emptyCache Ex m) (e0 :: front)).cache = none := by
    apply alookup_eq_none_iff.mpr
    rw [hSkeys]
    intro hmem
    obtain ⟨e, he, hee⟩ := List.mem_map.mp hmem
    exact hκn e he hee
  have hfs : alookup (fp elast) (putAll (emptyCache Ex m) (e0 :: front)).stats = none := by
    apply alookup_eq_none_iff.mpr
    rw [hSstatkeys]
    intro hmem
    obtain ⟨e, he, hee⟩ := List.mem_map.mp hmem
    exact hκn e he hee
  have hmfull : (putAll (emptyCache Ex m) (e0 :: front)).cache.length =
      (putAll (emptyCache Ex m) (e0 :: front)).max_size := by
    rw [hfold]
    simp only [emptyCache, List.nil_append, List.length_map]
    exact hlen
  have hput := putOne_fresh_full_eq (putAll (emptyCache Ex m) (e0 :: front)) elast
    (fp e0) e0.examples (front.map (fun e => (fp e, e.examples))) hScache hfc hfs hmfull
  rw [hsplit, hput]
  dsimp only
  -- κ0 is absent from the tail keys
  have hnd1' := hnd1
  rw [List.map_cons, List.nodup_cons] at hnd1'
  have h0tail : fp e0 ∉ (front.map (fun e => (fp e, e.examples)) ++
      [(fp elast, elast.examples)]).map Prod.fst := by
    simp only [List.map_append, List.map_map, List.mem_append, not_or]
    constructor
    · intro hmem
      apply hnd1'.1
      obtain ⟨e, he, hee⟩ := List.mem_map.mp hmem
      exact List.mem_map.mpr ⟨e, he, hee⟩
    · intro hmem
      simp only [List.map_singleton, List.mem_singleton] at hmem
      exact hκn e0 (List.mem_cons_self _ _) hmem
  have hcache_eq : aerase (fp e0) (((fp e0, e0.examples) ::
        front.map (fun e => (fp e, e.examples))) ++ [(fp elast, elast.examples)]) =
      front.map (fun e => (fp e, e.examples)) ++ [(fp elast, elast.examples)] := by
    rw [List.cons_append]
    simp only [aerase, if_pos rfl]
    exact aerase_of_not_mem h0tail
  refine ⟨?_, ?_, ?_, ?_⟩
  · rw [hcache_eq]
    simp only [List.length_append, List.length_map, List.length_singleton]
    simp only [List.length_cons] at hlen
    omega
  · exact alookup_aerase_self _ _
  · exact alookup_aerase_self _ _
  · intro e he
    rw [hcache_eq]
    apply alookup_isSome_iff.mpr
    simp only [List.map_append, List.map_map, List.mem_append]
    rcases List.mem_append.mp he with he1 | he2
    · left
      exact List.mem_map.mpr ⟨e, he1, rfl⟩
    · right
      simp only [List.mem_singleton] at he2
      subst he2
      simp

/-- Touch-then-overflow scenario: fill an empty cache of capacity `m` with
distinct fingerprints, `get` the first one (promoting it), then `put` a fresh
fingerprint. The touched first entry survives the eviction; the never-touched
second entry is the one evicted. -/
theorem touched_entry_survives {Ex : Type} (m : ℕ) (e0 e1 : PutArgs Ex)
    (rest : List (PutArgs Ex)) (enew : PutArgs Ex) (t : ℚ)
    (hlen : (e0 :: e1 :: rest).length = m)
    (hnd : (((e0 :: e1 :: rest) ++ [enew]).map fp).Nodup) :
    (alookup (fp e0)
        (putOne ((cacheGet (putAll (emptyCache Ex m) (e0 :: e1 :: rest))
          e0.destination e0.preferences t).2) enew).cache).isSome = true ∧
      alookup (fp e1)
        (putOne ((cacheGet (putAll (emptyCache Ex m) (e0 :: e1 :: rest))
          e0.destination e0.preferences t).2) enew).cache = none := by
  rw [List.map_append, List.nodup_append] at hnd
  obtain ⟨hnd1, -, hdisj⟩ := hnd
  have hκn : ∀ e ∈ e0 :: e1 :: rest, fp e ≠ fp enew := by
    intro e he hh
    exact hdisj (List.mem_map.mpr ⟨e, he, rfl⟩) (by simp [hh])
  have hnd1' := hnd1
  rw [List.map_cons, List.nodup_cons] at hnd1'
  obtain ⟨h0tail, hnd2⟩ := hnd1'
  rw [List.map_cons, List.nodup_cons] at hnd2
  obtain ⟨h1tail, -⟩ := hnd2
  have h01 : fp e0 ≠ fp e1 := by
    intro hh
    exact h0tail (by rw [List.map_cons]; exact List.mem_cons.mpr (Or.inl hh))
  have hfold := putAll_fresh (e0 :: e1 :: rest) (emptyCache Ex m) hnd1
    (fun e _ => rfl) (fun e _ => rfl)
    (by simp [emptyCache, hlen])
  have hScache : (putAll (emptyCache Ex m) (e0 :: e1 :: rest)).cache =
      (fp e0, e0.examples) :: (fp e1, e1.examples) ::
        rest.map (fun e => (fp e, e.examples)) := by
    rw [hfold]
    rfl
  have hSstatkeys : ((putAll (emptyCache Ex m) (e0 :: e1 :: rest)).stats).map Prod.fst =
      (e0 :: e1 :: rest).map fp := by
    rw [hfold]
    simp [List.map_map, Function.comp, emptyCache]
  have hSmax : (putAll (emptyCache Ex m) (e0 :: e1 :: rest)).max_size = m := by
    rw [hfold]
    rfl
  have hlk : alookup (generate_key e0.destination e0.preferences)
      (putAll (emptyCache Ex m) (e0 :: e1 :: rest)).cache = some e0.examples := by
    rw [hScache]
    simp [alookup, fp]
  -- the state after the promoting get
  have hs2cache : ((cacheGet (putAll (emptyCache Ex m) (e0 :: e1 :: rest))
      e0.destination e0.preferences t).2).cache =
      ((fp e1, e1.examples) :: rest.map (fun e => (fp e, e.examples))) ++
        [(fp e0, e0.examples)] := by
    unfold cacheGet
    dsimp only
    rw [hlk]
    dsimp only
    rw [show generate_key e0.destination e0.preferences = fp e0 from rfl]
    rw [hScache]
    have h0notail : fp e0 ∉ ((fp e1, e1.examples) ::
        rest.map (fun e => (fp e, e.examples))).map Prod.fst := by
      simp only [List.map_cons, List.mem_cons, List.map_map, not_or]
      refine ⟨h01, ?_⟩
      intro hmem
      apply h0tail
      rw [List.map_cons]
      apply List.mem_cons.mpr
      right
      obtain ⟨e, he, hee⟩ := List.mem_map.mp hmem
      exact List.mem_map.mpr ⟨e, he, hee⟩
    have : aerase (fp e0) ((fp e0, e0.examples) :: (fp e1, e1.examples) ::
        rest.map (fun e => (fp e, e.examples))) =
        (fp e1, e1.examples) :: rest.map (fun e => (fp e, e.examples)) := by
      simp only [aerase, if_pos rfl]
      exact aerase_of_not_mem h0notail
    rw [this]
  have hs2stats : ∃ st, ((cacheGet (putAll (emptyCache Ex m) (e0 :: e1 :: rest))
      e0.destination e0.preferences t).2).stats =
      aset (fp e0) st
        (putAll (emptyCache Ex m) (e0 :: e1 :: rest)).stats := by
    unfold cacheGet
    dsimp only
    rw [hlk]
    exact ⟨_, rfl⟩
  obtain ⟨st1, hs2stats⟩ := hs2stats
  have hs2max : ((cacheGet (putAll (emptyCache Ex m) (e0 :: e1 :: rest))
      e0.destination e0.preferences t).2).max_size = m := by
    rw [(cacheGet_snd_length _ _ _ _).2, hSmax]
  -- fresh-key and full-capacity facts for the final put
  have hkeys2 : (((cacheGet (putAll (emptyCache Ex m) (e0 :: e1 :: rest))
      e0.destination e0.preferences t).2).cache).map Prod.fst =
      (fp e1 :: rest.map fp) ++ [fp e0] := by
    rw [hs2cache]
    simp [List.map_map, Function.comp]
  have hfc : alookup (fp enew) ((cacheGet (putAll (emptyCache Ex m) (e0 :: e1 :: rest))
      e0.destination e0.preferences t).2).cache = none := by
    apply alookup_eq_none_iff.mpr
    rw [hkeys2]
    intro hmem
    rcases List.mem_append.mp hmem with h | h
    · rcases List.mem_cons.mp h with h | h
      · exact hκn e1 (List.mem_cons_of_mem _ (List.mem_cons_self _ _)) h.symm
      · obtain ⟨e, he, hee⟩ := List.mem_map.mp h
        exact hκn e (List.mem_cons_of_mem _ (List.mem_cons_of_mem _ he)) hee
    · rw [List.mem_singleton] at h
      exact hκn e0 (List.mem_cons_self _ _) h.symm
  have hfs : alookup (fp enew) ((cacheGet (putAll (emptyCache Ex m) (e0 :: e1 :: rest))
      e0.destination e0.preferences t).2).stats = none := by
    rw [hs2stats]
    rw [alookup_aset_ne _ _ (hκn e0 (List.mem_cons_self _ _)).symm]
    apply alookup_eq_none_iff.mpr
    rw [hSstatkeys]
    intro hmem
    obtain ⟨e, he, hee⟩ := List.mem_map.mp hmem
    exact hκn e he hee
  have hm2 : ((cacheGet (putAll (emptyCache Ex m) (e0 :: e1 :: rest))
      e0.destination e0.preferences t).2).cache.length =
      ((cacheGet (putAll (emptyCache Ex m) (e0 :: e1 :: rest))
        e0.destination e0.preferences t).2).max_size := by
    rw [hs2cache]
    rw [hs2max]
    simp only [List.length_append, List.length_cons, List.length_map,
      List.length_singleton, List.length_nil]
    simp only [List.length_cons] at hlen
    omega
  have hput := putOne_fresh_full_eq _ enew (fp e1) e1.examples
    (rest.map (fun e => (fp e, e.examples)) ++ [(fp e0, e0.examples)])
    (by rw [hs2cache, List.cons_append]) hfc hfs hm2
  rw [hput]
  dsimp only
  constructor
  · rw [alookup_aerase_ne _ h01]
    apply alookup_isSome_iff.mpr
    have hk3 : ((((fp e1, e1.examples) :: (rest.map (fun e => (fp e, e.examples)) ++
        [(fp e0, e0.examples)])) ++ [(fp enew, enew.examples)]).map Prod.fst) =
        (fp e1 :: (rest.map fp ++ [fp e0])) ++ [fp enew] := by
      simp [List.map_map, Function.comp]
    rw [hk3]
    simp
  · exact alookup_aerase_self _ _

theorem applyOps_max_size {Ex : Type} :
    ∀ (ops : List (CacheOp Ex)) (s : CacheState Ex),
      (applyOps s ops).max_size = s.max_size := by
  intro ops
  induction ops with
  | nil => intro s; rfl
  | cons op rest ih =>
    intro s
    have hstep : (applyOp s op).max_size = s.max_size := by
      cases op with
      | get d p now => exact (cacheGet_snd_length s d p now).2
      | put d p ex sat now => rfl
    have hfold : applyOps s (op :: rest) = applyOps (applyOp s op) rest := by
      unfold applyOps
      rw [List.foldl_cons]
    rw [hfold, ih, hstep]

/-- C3: the cache never exceeds `max_size` after any sequence of operations
from empty; putting `max_size + 1` distinct fingerprints from empty leaves
exactly `max_size` entries with the least-recently-used (first) fingerprint
removed from both the entry map and the stats map and all later ones present;
every `get` hit and every `put` promotes its key to the most-recently-used
end; and an early entry touched via `get` before the overflow insert survives
while the never-touched next-oldest peer is evicted. -/
theorem lru_cache_bound_and_eviction :
    (∀ (Ex : Type) (m : ℕ) (ops : List (CacheOp Ex)),
      (applyOps (emptyCache Ex m) ops).cache.length ≤ m) ∧
    (∀ (Ex : Type) (m : ℕ) (e0 : PutArgs Ex) (front : List (PutArgs Ex))
        (elast : PutArgs Ex),
      (e0 :: front).length = m →
      (((e0 :: front) ++ [elast]).map fp).Nodup →
      ((putAll (emptyCache Ex m) ((e0 :: front) ++ [elast])).cache.length = m ∧
        alookup (fp e0) (putAll (emptyCache Ex m) ((e0 :: front) ++ [elast])).cache
          = none ∧
        alookup (fp e0) (putAll (emptyCache Ex m) ((e0 :: front) ++ [elast])).stats
          = none ∧
        ∀ e ∈ front ++ [elast],
          (alookup (fp e)
            (putAll (emptyCache Ex m) ((e0 :: front) ++ [elast])).cache).isSome
            = true)) ∧
    (∀ (Ex : Type) (s : CacheState Ex) (destination preferences : String) (now : ℚ)
        (v : List Ex),
      alookup (generate_key destination preferences) s.cache = some v →
      ((cacheGet s destination preferences now).2).cache.getLast? =
        some (generate_key destination preferences, v)) ∧
    (∀ (Ex : Type) (s : CacheState Ex) (destination preferences : String)
        (examples : List Ex) (sat now : ℚ),
      s.cache.length ≤ s.max_size → 1 ≤ s.max_size →
      (cachePut s destination preferences examples sat now).cache.getLast? =
        some (generate_key destination preferences, examples)) ∧
    (∀ (Ex : Type) (m : ℕ) (e0 e1 : PutArgs Ex) (rest : List (PutArgs Ex))
        (enew : PutArgs Ex) (t : ℚ),
      (e0 :: e1 :: rest).length = m →
      (((e0 :: e1 :: rest) ++ [enew]).map fp).Nodup →
      ((alookup (fp e0)
          (putOne ((cacheGet (putAll (emptyCache Ex m) (e0 :: e1 :: rest))
            e0.destination e0.preferences t).2) enew).cache).isSome = true ∧
        alookup (fp e1)
          (putOne ((cacheGet (putAll (emptyCache Ex m) (e0 :: e1 :: rest))
            e0.destination e0.preferences t).2) enew).cache = none)) := by
  refine ⟨?_, ?_, ?_, ?_, ?_⟩
  · intro Ex m ops
    have h := applyOps_length ops (emptyCache Ex m) (Nat.zero_le m)
    rw [applyOps_max_size] at h
    exact h
  · intro Ex m e0 front elast hlen hnd
    exact fill_over_capacity m e0 front elast hlen hnd
  · intro Ex s destination preferences now v h
    exact cacheGet_hit_getLast s destination preferences now v h
  · intro Ex s destination preferences examples sat now h hm
    exact cachePut_getLast s destination preferences examples sat now h hm
  · intro Ex m e0 e1 rest enew t hlen hnd
    exact touched_entry_survives m e0 e1 rest enew t hlen hnd

/-- Witness for C3 at concrete caches: capacity 2 filled with "a","b" then
"c"; a promoting get on `wRankCache`; a put on `wRankCache`; and the
touch-then-overflow scenario at capacity 3. -/
theorem lru_cache_bound_and_eviction_witness :
    ((applyOps (emptyCache String 2) [CacheOp.put "a" "" ["xa"] (1/2) 0,
        CacheOp.put "b" "" ["xb"] (1/2) 0, CacheOp.get "a" "" 1,
        CacheOp.put "c" "" ["xc"] (1/2) 2]).cache.length ≤ 2) ∧
    (((wPut "a" :: [wPut "b"]).length = 2 ∧
        (((wPut "a" :: [wPut "b"]) ++ [wPut "c"]).map fp).Nodup) ∧
      ((putAll (emptyCache String 2) ((wPut "a" :: [wPut "b"]) ++ [wPut "c"])).cache.length
          = 2 ∧
        alookup (fp (wPut "a"))
          (putAll (emptyCache String 2) ((wPut "a" :: [wPut "b"]) ++ [wPut "c"])).cache
          = none ∧
        alookup (fp (wPut "a"))
          (putAll (emptyCache String 2) ((wPut "a" :: [wPut "b"]) ++ [wPut "c"])).stats
          = none ∧
        ∀ e ∈ [wPut "b"] ++ [wPut "c"],
          (alookup (fp e)
            (putAll (emptyCache String 2)
              ((wPut "a" :: [wPut "b"]) ++ [wPut "c"])).cache).isSome = true)) ∧
    (alookup (generate_key "K" "") wRankCache.cache = some ["e1", "e2"] ∧
      ((cacheGet wRankCache "K" "" 5).2).cache.getLast? =
        some (generate_key "K" "", ["e1", "e2"])) ∧
    ((wRankCache.cache.length ≤ wRankCache.max_size ∧ 1 ≤ wRankCache.max_size) ∧
      (cachePut wRankCache "new" "" ["z"] (1/2) 6).cache.getLast? =
        some (generate_key "new" "", ["z"])) ∧
    (((wPut "a" :: wPut "b" :: [wPut "c"]).length = 3 ∧
        (((wPut "a" :: wPut "b" :: [wPut "c"]) ++ [wPut "d"]).map fp).Nodup) ∧
      ((alookup (fp (wPut "a"))
          (putOne ((cacheGet (putAll (emptyCache String 3)
            (wPut "a" :: wPut "b" :: [wPut "c"]))
            (wPut "a").destination (wPut "a").preferences 5).2) (wPut "d")).cache).isSome
          = true ∧
        alookup (fp (wPut "b"))
          (putOne ((cacheGet (putAll (emptyCache String 3)
            (wPut "a" :: wPut "b" :: [wPut "c"]))
            (wPut "a").destination (wPut "a").preferences 5).2) (wPut "d")).cache
          = none)) :=
  ⟨lru_cache_bound_and_eviction.1 String 2 _,
    ⟨⟨by decide, by decide⟩,
      lru_cache_bound_and_eviction.2.1 String 2 (wPut "a") [wPut "b"] (wPut "c")
        (by decide) (by decide)⟩,
    ⟨by decide,
      lru_cache_bound_and_eviction.2.2.1 String wRankCache "K" "" 5 ["e1", "e2"]
        (by decide)⟩,
    ⟨⟨by decide, by decide⟩,
      lru_cache_bound_and_eviction.2.2.2.1 String wRankCache "new" "" ["z"] (1/2) 6
        (by decide) (by decide)⟩,
    ⟨⟨by decide, by decide⟩,
      lru_cache_bound_and_eviction.2.2.2.2 String 3 (wPut "a") (wPut "b") [wPut "c"]
        (wPut "d") 5 (by decide) (by decide)⟩⟩

/-! ### Claim C4 -/

theorem base_le_foldl_max : ∀ (l : List ℕ) (n : ℕ), n ≤ l.foldl Nat.max n := by
  intro l
  induction l with
  | nil => intro n; exact le_refl n
  | cons b t ih =>
    intro n
    exact le_trans (Nat.le_max_left n b) (ih (Nat.max n b))

theorem le_foldl_max : ∀ (l : List ℕ) (n a : ℕ), a ∈ l → a ≤ l.foldl Nat.max n := by
  intro l
  induction l with
  | nil =>
    intro n a h
    simp at h
  | cons b t ih =>
    intro n a h
    rcases List.mem_cons.mp h with rfl | h2
    · exact le_trans (Nat.le_max_right n a) (base_le_foldl_max t (Nat.max n a))
    · exact ih _ a h2

theorem maxUsage_ge_of_mem (l : List (String × CacheStats)) (k : String)
    (st : CacheStats) (h : (k, st) ∈ l) : st.usage_count ≤ maxUsage l := by
  unfold maxUsage
  have hm : st.usage_count ∈ l.map (fun p => p.2.usage_count) :=
    List.mem_map_of_mem _ h
  have hne : (l.map (fun p => p.2.usage_count)).isEmpty = false := by
    cases hl : l.map (fun p => p.2.usage_count) with
    | nil => rw [hl] at hm; simp at hm
    | cons a t => rfl
  dsimp only
  rw [hne]
  simp only [Bool.false_eq_true, if_false]
  exact le_foldl_max _ 0 _ hm

theorem one_le_maxUsage_aset (l : List (String × CacheStats)) (k : String)
    (st : CacheStats) (h : 1 ≤ st.usage_count) : 1 ≤ maxUsage (aset k st l) :=
  le_trans h (maxUsage_ge_of_mem _ k st (alookup_some_mem (alookup_aset_self k st l)))

theorem compositeScore_eq_max_form (sat : ℚ) (u M : ℕ) (age : ℚ) (h : 1 ≤ M) :
    compositeScore sat u M age =
      0.4 * sat + 0.3 * ((u : ℚ) / ((Nat.max M 1 : ℕ) : ℚ)) +
        0.3 * max 0 (1 - age / 30) := by
  have hM : Nat.max M 1 = M := Nat.max_eq_left h
  rw [hM]
  rfl

/-- Sorting a constant-score list with the descending comparator is the
identity (stability), so taking and projecting recovers the original order. -/
theorem ranked_list_const_score {Ex : Type} (exs : List Ex) (k : ℕ) (C : ℚ)
    (B : ScoreBreakdown) :
    ((((exs.map (fun e => (e, C, B))).mergeSort
        (fun x y => decide (y.2.1 ≤ x.2.1))).take k).map (fun t => t.1) = exs.take k) ∧
    ((((exs.map (fun e => (e, C, B))).mergeSort
        (fun x y => decide (y.2.1 ≤ x.2.1))).take k).map (fun t => t.2.2) =
      (exs.take k).map (fun _ => B)) := by
  have hpw : (exs.map (fun e => (e, C, B))).Pairwise
      (fun x y => (fun a b => decide (b.2.1 ≤ a.2.1)) x y = true) := by
    apply List.pairwise_of_forall_mem_list
    intro a ha b hb
    obtain ⟨ea, -, rfl⟩ := List.mem_map.mp ha
    obtain ⟨eb, -, rfl⟩ := List.mem_map.mp hb
    simp
  rw [List.mergeSort_of_sorted hpw]
  constructor
  · rw [← List.map_take, List.map_map]
    have h1 : ((fun t : Ex × ℚ × ScoreBreakdown => t.1) ∘ fun e => (e, C, B)) =
        fun e => e := rfl
    rw [h1, List.map_id']
  · rw [← List.map_take, List.map_map]
    have h2 : ((fun t : Ex × ℚ × ScoreBreakdown => t.2.2) ∘ fun e => (e, C, B)) =
        fun _ => B := rfl
    rw [h2]

/-- C4: on a hit, `get_ranked_examples` scores every example of the entry
with the composite `0.4*satisfaction + 0.3*popularity + 0.3*recency`, where
popularity normalizes this key's (post-get-bump) usage count by
`max(usage over all cached entries, 1)` and recency is `max(0, 1 - age/30)`;
since all examples under a fingerprint share one stats record, the stable
descending sort keeps the stored order and the returned list is the first
`top_k` examples. The second conjunct pins the claim's concrete instance:
satisfaction 0.8, usage 5, max usage 10, age 10 days gives
`0.4*0.8 + 0.3*0.5 + 0.3*(1 - 10/30) = 0.67`. -/
theorem ranked_examples_composite :
    (∀ (Ex : Type) (s : CacheState Ex) (destination preferences : String)
        (top_k : ℕ) (now : ℚ) (exs : List Ex),
      alookup (generate_key destination preferences) s.cache = some exs →
      exs ≠ [] →
      (let st0 := (alookup (generate_key destination preferences) s.stats).getD
        ⟨0, none, now, none⟩
      let st1 : CacheStats :=
        { st0 with usage_count := st0.usage_count + 1, last_used := some now }
      let M := maxUsage (aset (generate_key destination preferences) st1 s.stats)
      let sat := st1.satisfaction_score.getD 0.5
      let age := (now - st1.created_at) / (60 * 60 * 24)
      let c := compositeScore sat st1.usage_count M age
      (get_ranked_examples s destination preferences top_k now).1.1 = exs.take top_k ∧
        ∃ ri, (get_ranked_examples s destination preferences top_k now).1.2 = some ri ∧
          ri.total_examples_evaluated = exs.length ∧
          ri.top_examples_selected = min top_k exs.length ∧
          ri.scores.length = min top_k exs.length ∧
          (∀ b ∈ ri.scores, b.composite = pyRound 3 c) ∧
          c = 0.4 * sat + 0.3 * ((st1.usage_count : ℚ) / ((Nat.max M 1 : ℕ) : ℚ)) +
              0.3 * max 0 (1 - age / 30))) ∧
    compositeScore 0.8 5 10 10 = 67/100 := by
  constructor
  · intro Ex s destination preferences top_k now exs h1 h2
    dsimp only
    have hne : exs.isEmpty = false := by
      cases exs
      · exact absurd rfl h2
      · rfl
    have hget : cacheGet s destination preferences now = (some exs,
        { s with
          cache := aerase (generate_key destination preferences) s.cache ++
            [(generate_key destination preferences, exs)],
          stats := aset (generate_key destination preferences)
            { (alookup (generate_key destination preferences) s.stats).getD
                ⟨0, none, now, none⟩ with
              usage_count := ((alookup (generate_key destination preferences)
                s.stats).getD ⟨0, none, now, none⟩).usage_count + 1,
              last_used := some now } s.stats,
          writes := s.writes + 1 }) := by
      unfold cacheGet
      dsimp only
      rw [h1]
    unfold get_ranked_examples
    rw [hget]
    dsimp only
    rw [hne]
    simp only [Bool.false_eq_true, if_false]
    rw [alookup_aset_self]
    simp only [Option.some_bind, Option.map_some', Option.getD_some]
    refine ⟨(ranked_list_const_score exs top_k _ _).1, _, rfl, ?_, ?_, ?_, ?_, ?_⟩
    · simp
    · simp
    · rw [(ranked_list_const_score exs top_k _ _).2]
      simp
    · rw [(ranked_list_const_score exs top_k _ _).2]
      intro b hb
      obtain ⟨a, -, rfl⟩ := List.mem_map.mp hb
      rfl
    · refine compositeScore_eq_max_form _ _ _ _
        (one_le_maxUsage_aset s.stats _ _ ?_)
      exact Nat.le_add_left 1 _
  · show compositeScore 0.8 5 10 10 = 67/100
    unfold compositeScore
    norm_num

/-- Witness for C4: on `wRankCache` ("k_" entry `["e1", "e2"]`, usage 4,
satisfaction 4/5, created at 0; "other_" entry usage 10) a ranked get for
"K"/"" at time 864000 (day 10) bumps usage to 5, normalizes by max usage 10,
and every score breakdown carries the composite of satisfaction 4/5,
usage 5/10 and age 10 days. -/
theorem ranked_examples_composite_witness :
    (alookup (generate_key "K" "") wRankCache.cache = some ["e1", "e2"] ∧
      (["e1", "e2"] : List String) ≠ []) ∧
    ((get_ranked_examples wRankCache "K" "" 1 864000).1.1 = ["e1"] ∧
      ∃ ri, (get_ranked_examples wRankCache "K" "" 1 864000).1.2 = some ri ∧
        ri.total_examples_evaluated = 2 ∧
        ri.top_examples_selected = 1 ∧
        ri.scores.length = 1 ∧
        (∀ b ∈ ri.scores, b.composite = pyRound 3 (compositeScore (4/5) 5 10 10)) ∧
        compositeScore (4/5) 5 10 10 =
          0.4 * (4/5 : ℚ) + 0.3 * ((5 : ℚ) / ((Nat.max 10 1 : ℕ) : ℚ)) +
            0.3 * max 0 (1 - (10 : ℚ) / 30)) :=
  ⟨⟨by decide, by decide⟩,
    ranked_examples_composite.1 String wRankCache "K" "" 1 864000 ["e1", "e2"]
      (by decide) (by decide)⟩

end TravelAssistant
